import Mathlib

/-! Shallow embedding of the randomization and paging core implemented in
`src/DataReader/HTKMLFReader/utterancesourcemultiNew.h` (class
`msra::dbn::minibatchutterancesourcemulti` and its inner class `randomizer`),
together with proofs of the specification's claims about it.

Conventions of the embedding:
- machine integers (`size_t`) are `Nat`; the C runtime pseudo random stream
  after `srand(seed)` is an abstract function of the seed and the draw index;
- the unbounded rejection loop of the constrained sequence shuffle carries an
  explicit fuel parameter (running out of fuel leaves the position unswapped,
  exactly like the draw `j = i` does, so every terminating source execution is
  some fuel instance of the model);
- `LogicError` / `RuntimeError` are the error cases of `Option` / `Except`;
  `assert` statements (active only in debug builds) are modelled where a claim
  is about them, via an explicit `debug` flag;
- only feature stream 0 of the randomizer is modelled: the source computes
  windows and positions for stream 0 only and reuses the same shuffle for the
  other streams.  Cross-stream paging keeps its per-stream residency model.
-/

namespace CNTKSource

/-- Model of the C runtime generator state: the seed installed by `srand` and
the number of draws made since. -/
structure RngState where
  seed : Nat
  cnt : Nat
deriving DecidableEq

/-- A family of raw pseudo random streams, indexed by seed and draw count. -/
abbrev RandFam := Nat → Nat → Nat

/-- Model of `srand`: the previous generator state is discarded. -/
def srandM (_st : RngState) (seed : Nat) : RngState := ⟨seed, 0⟩

/-- Model of `msra::dbn::rand(begin, end)`: a raw draw reduced into the
requested interval. -/
def randM (R : RandFam) (st : RngState) (lo hi : Nat) : Nat × RngState :=
  (lo + R st.seed st.cnt % (hi - lo), ⟨st.seed, st.cnt + 1⟩)

/-- Swap two positions of a list, the model of `::swap (v[i], v[j])` on a
`std::vector` (out-of-range indices cannot occur in the modelled runs). -/
def lswap (d : α) (l : List α) (i j : Nat) : List α :=
  if i < l.length ∧ j < l.length then (l.set i (l.getD j d)).set j (l.getD i d) else l

/-- One iteration of `randomizer::randomshuffle`: draw a random location and
swap element `i` with it (no swap when the draw hits `i` itself). -/
def shuffleStep (R : RandFam) (d : α) (n : Nat) (p : List α × RngState) (i : Nat) :
    List α × RngState :=
  let pr := randM R p.2 0 n
  if pr.1 = i then (p.1, pr.2) else (lswap d p.1 i pr.1, pr.2)

/-- `randomizer::randomshuffle`: seed with `seed`, then swap every index with a
random location.  The guard comparing the set size against `RAND_MAX`, a
platform constant outside the sources, is not modelled. -/
def randomshuffle (R : RandFam) (d : α) (v : List α) (st0 : RngState) (seed : Nat) :
    List α × RngState :=
  (List.range v.length).foldl (shuffleStep R d v.length) (v, srandM st0 seed)

/-- A chunk placed on the randomized global timeline (`randomizer::chunk`,
stream 0).  `data` lists the frame counts of the utterances of the underlying
chunk, standing for the `uttchunkdata` iterator. -/
structure RChunk where
  data : List Nat
  utteranceposbegin : Nat
  globalts : Nat
  windowbegin : Nat
  windowend : Nat
deriving DecidableEq

instance : Inhabited RChunk := ⟨⟨[], 0, 0, 0, 0⟩⟩

/-- `randomizer::chunk::numutterances`. -/
def RChunk.numutterances (c : RChunk) : Nat := c.data.length

/-- `randomizer::chunk::numframes`. -/
def RChunk.numframes (c : RChunk) : Nat := c.data.sum

/-- `randomizer::chunk::utteranceposend`. -/
def RChunk.utteranceposend (c : RChunk) : Nat := c.utteranceposbegin + c.numutterances

/-- `randomizer::chunk::globalte`. -/
def RChunk.globalte (c : RChunk) : Nat := c.globalts + c.numframes

/-- Place the shuffled chunks consecutively on the global timeline: each chunk
starts at the previous chunk's utterance-position end and global end
(`lazyrandomization`, construction of `randomizedchunks`).  Windows are filled
in by a later pass and start out as `0`. -/
def placeChunksGo : List (List Nat) → Nat → Nat → List RChunk
  | [], _, _ => []
  | dta :: rest, posbegin, ts =>
      ⟨dta, posbegin, ts, 0, 0⟩ :: placeChunksGo rest (posbegin + dta.length) (ts + dta.sum)

/-- The `windowbegin`-advancing loop of the window pass, with explicit fuel
(the source loop stops at the current chunk at the latest, where the gap is
zero, so `cs.length` fuel is always enough). -/
def wbAdvance (cs : List RChunk) (gtsk r2 : Nat) : Nat → Nat → Nat
  | 0, wb => wb
  | fuel + 1, wb =>
      if r2 < gtsk - (cs.getD wb default).globalts then wbAdvance cs gtsk r2 fuel (wb + 1)
      else wb

/-- The `windowend`-advancing loop of the window pass. -/
def weAdvance (cs : List RChunk) (gtsk r2 : Nat) : Nat → Nat → Nat
  | 0, we => we
  | fuel + 1, we =>
      if we < cs.length ∧ (cs.getD we default).globalte - gtsk < r2 then
        weAdvance cs gtsk r2 fuel (we + 1)
      else we

/-- The window-computation pass over the randomized chunk sequence, carrying
the previous chunk's window forward and widening it (`lazyrandomization`,
randomization-range loop; performed for stream 0 only).  `r2` is
`randomizationrange / 2`; the structural fuel is instantiated with the chunk
count, one unit per loop iteration. -/
def computeWindowsGo (cs : List RChunk) (r2 : Nat) : Nat → Nat → Nat → Nat → List RChunk
  | 0, _, _, _ => []
  | fuel + 1, k, wb, we =>
      if k < cs.length then
        let c := cs.getD k default
        let wb2 := wbAdvance cs c.globalts r2 cs.length wb
        let we2 := weAdvance cs c.globalts r2 cs.length we
        { c with windowbegin := wb2, windowend := we2 } ::
          computeWindowsGo cs r2 fuel (k + 1) wb2 we2
      else []

/-- `SIZE_MAX`, the marker stored in a default-constructed `sequenceref`. -/
def SIZEMAX : Nat := 2 ^ 64 - 1

/-- `randomizer::sequenceref`. -/
structure SeqRef where
  chunkindex : Nat
  utteranceindex : Nat
  frameindex : Nat
  globalts : Nat
  numframes : Nat
deriving DecidableEq

instance : Inhabited SeqRef := ⟨⟨0, 0, 0, SIZEMAX, 0⟩⟩

/-- `sequenceref::globalte`. -/
def SeqRef.globalte (r : SeqRef) : Nat := r.globalts + r.numframes

/-- The `(utteranceindex, frameindex)` pairs contributed by one chunk, in
source order: utterances in catalog order, and per utterance a single entry in
utterance mode or one entry per frame in frame mode. -/
def chunkSeqIdx (framemode : Bool) (dta : List Nat) : List (Nat × Nat) :=
  (List.range dta.length).flatMap (fun i =>
    (List.range (if framemode then dta.getD i 0 else 1)).map (fun m => (i, m)))

/-- Defining-chunk index per sequence position (`positionchunkwindows`). -/
def posdefsList (framemode : Bool) (cs : List RChunk) : List Nat :=
  (List.range cs.length).flatMap (fun k =>
    (chunkSeqIdx framemode (cs.getD k default).data).map (fun _ => k))

/-- Initial non-random assignment of the sequence positions
(`randomizedutterancerefs` ahead of the shuffle): position by position the
triple `(k, i, m)` of the enumeration of the randomized chunk sequence. -/
def initialRefs (framemode : Bool) (cs : List RChunk) : List SeqRef :=
  (List.range cs.length).flatMap (fun k =>
    (chunkSeqIdx framemode (cs.getD k default).data).map (fun im =>
      ⟨k, im.1, im.2, SIZEMAX, 0⟩))

/-- `positionchunkwindow::isvalidforthisposition` for a position whose defining
chunk has index `defk`. -/
def validAtB (cs : List RChunk) (defk : Nat) (r : SeqRef) : Bool :=
  decide ((cs.getD defk default).windowbegin ≤ r.chunkindex) &&
    decide (r.chunkindex < (cs.getD defk default).windowend)

/-- The rejection loop at one position of the constrained sequence shuffle,
with explicit fuel; exhausted fuel leaves the position unswapped, which is
also the effect of the draw `j = i`. -/
def tryswapLoop (R : RandFam) (cs : List RChunk) (posdefs : List Nat)
    (posbegin posend i : Nat) :
    Nat → List SeqRef → RngState → List SeqRef × RngState
  | 0, refs, st => (refs, st)
  | fuel + 1, refs, st =>
      let pr := randM R st posbegin posend
      if pr.1 = i then (refs, pr.2)
      else if validAtB cs (posdefs.getD i 0) (refs.getD pr.1 default) &&
          validAtB cs (posdefs.getD pr.1 0) (refs.getD i default) then
        (lswap default refs i pr.1, pr.2)
      else tryswapLoop R cs posdefs posbegin posend i fuel refs pr.2

/-- The constrained sequence shuffle (`lazyrandomization`, swap loop over all
positions): for every position, derive the allowed position range from the
chunk window of its defining chunk and try random swaps inside it.  The
structural fuel counts the remaining positions and is instantiated with `n`. -/
def shuffleRefsGo (R : RandFam) (framemode : Bool) (cs : List RChunk)
    (posdefs : List Nat) (sweepts fuel n : Nat) :
    Nat → Nat → List SeqRef → RngState → List SeqRef × RngState
  | 0, _, refs, st => (refs, st)
  | fuel2 + 1, i, refs, st =>
      if i < n then
        let defk := posdefs.getD i 0
        let wb := (cs.getD defk default).windowbegin
        let we := (cs.getD defk default).windowend
        let posbegin := if framemode then (cs.getD wb default).globalts - sweepts
          else (cs.getD wb default).utteranceposbegin
        let posend := if framemode then (cs.getD (we - 1) default).globalte - sweepts
          else (cs.getD (we - 1) default).utteranceposend
        let pr := tryswapLoop R cs posdefs posbegin posend i fuel refs st
        shuffleRefsGo R framemode cs posdefs sweepts fuel n fuel2 (i + 1) pr.1 pr.2
      else (refs, st)

/-- Assign `globalts` and `numframes` along the randomized sequence
(`lazyrandomization`, timeline loop): each position starts where the previous
one ended, frames count 1 in frame mode and the utterance length otherwise. -/
def finalizeRefsGo (framemode : Bool) (cs : List RChunk) : Nat → List SeqRef → List SeqRef
  | _, [] => []
  | t, r :: rest =>
      let nf := if framemode then 1
        else (cs.getD r.chunkindex default).data.getD r.utteranceindex 0
      { r with globalts := t, numframes := nf } ::
        finalizeRefsGo framemode cs (t + nf) rest

/-- The self-check of `lazyrandomization` raising
`LogicError("randomization logic mangled")`: every position's sequence must
lie inside the chunk window of the position's defining chunk.  The source runs
this verification twice (once per position, once again through the chunk
enumeration); the two passes test identical conditions, so a single pass is
modelled. -/
def checkRefs (cs : List RChunk) (posdefs : List Nat) (refs : List SeqRef) : Bool :=
  (List.zip posdefs refs).all (fun pr => validAtB cs pr.1 pr.2)

/-- The randomization state rebuilt per sweep (stream 0). -/
structure RandState where
  rchunks : List RChunk
  posdefs : List Nat
  refs : List SeqRef
  sweep : Nat
deriving DecidableEq

instance : Inhabited RandState := ⟨⟨[], [], [], 0⟩⟩

/-- `_totalframes`: the frame count of the whole corpus, the sum over all
chunks of the chunk's utterance frame counts. -/
def totalframesOf (allchunks : List (List Nat)) : Nat := (allchunks.map List.sum).sum

/-- The chunk sequence brought into random order for one sweep
(`randomizedchunkrefs` after `randomshuffle` with seed `sweep`). -/
def shuffledChunks (R : RandFam) (st0 : RngState) (allchunks : List (List Nat))
    (sweep : Nat) : List (List Nat) :=
  (randomshuffle R [] allchunks st0 sweep).1

/-- The randomized chunk sequence on the global timeline with its chunk
windows (`randomizedchunks[0]` after the window pass). -/
def rchunksOf (R : RandFam) (st0 : RngState) (randomizationrange : Nat)
    (allchunks : List (List Nat)) (sweep : Nat) : List RChunk :=
  computeWindowsGo
    (placeChunksGo (shuffledChunks R st0 allchunks sweep) 0 (sweep * totalframesOf allchunks))
    (randomizationrange / 2)
    (placeChunksGo (shuffledChunks R st0 allchunks sweep) 0
      (sweep * totalframesOf allchunks)).length
    0 0 1

/-- `randomizedutterancerefs` after the constrained shuffle with seed
`sweep + 1` but before the timeline pass. -/
def refsShuffled (R : RandFam) (fuel : Nat) (st0 : RngState) (framemode : Bool)
    (randomizationrange : Nat) (allchunks : List (List Nat)) (sweep : Nat) :
    List SeqRef :=
  (shuffleRefsGo R framemode (rchunksOf R st0 randomizationrange allchunks sweep)
    (posdefsList framemode (rchunksOf R st0 randomizationrange allchunks sweep))
    (sweep * totalframesOf allchunks) fuel
    (initialRefs framemode (rchunksOf R st0 randomizationrange allchunks sweep)).length
    (initialRefs framemode (rchunksOf R st0 randomizationrange allchunks sweep)).length 0
    (initialRefs framemode (rchunksOf R st0 randomizationrange allchunks sweep))
    (srandM (randomshuffle R ([] : List Nat) allchunks st0 sweep).2 (sweep + 1))).1

/-- `randomizedutterancerefs` with the timeline (`globalts`, `numframes`)
assigned. -/
def refsFinal (R : RandFam) (fuel : Nat) (st0 : RngState) (framemode : Bool)
    (randomizationrange : Nat) (allchunks : List (List Nat)) (sweep : Nat) :
    List SeqRef :=
  finalizeRefsGo framemode (rchunksOf R st0 randomizationrange allchunks sweep)
    (sweep * totalframesOf allchunks)
    (refsShuffled R fuel st0 framemode randomizationrange allchunks sweep)

/-- The per-sweep rebuild performed by `randomizer::lazyrandomization`, for a
given sweep index: shuffle the chunks with seed `sweep`, place them on the
timeline, compute the chunk windows, lay down the initial position
assignment, shuffle it under the window constraint with seed `sweep + 1`,
finalize the timeline, and run the self-check; `none` is the
`LogicError` outcome.  (The `globalts -> pos` lookup map built at the end has
no checks and no consumer among the modelled operations.) -/
def lazyrandomizationSweep (R : RandFam) (fuel : Nat) (st0 : RngState)
    (framemode : Bool) (randomizationrange : Nat) (allchunks : List (List Nat))
    (sweep : Nat) : Option RandState :=
  if checkRefs (rchunksOf R st0 randomizationrange allchunks sweep)
      (posdefsList framemode (rchunksOf R st0 randomizationrange allchunks sweep))
      (refsFinal R fuel st0 framemode randomizationrange allchunks sweep) then
    some ⟨rchunksOf R st0 randomizationrange allchunks sweep,
      posdefsList framemode (rchunksOf R st0 randomizationrange allchunks sweep),
      refsFinal R fuel st0 framemode randomizationrange allchunks sweep, sweep⟩
  else none

/-- `randomizer::lazyrandomization`: the sweep is `globalts / totalframes` and
determines the whole rebuild.  (The `currentsweep` early-out only skips the
rebuild when the state for this sweep is already cached.) -/
def lazyrandomization (R : RandFam) (fuel : Nat) (st0 : RngState)
    (framemode : Bool) (randomizationrange : Nat) (allchunks : List (List Nat))
    (globalts : Nat) : Option RandState :=
  lazyrandomizationSweep R fuel st0 framemode randomizationrange allchunks
    (globalts / (allchunks.map List.sum).sum)

/-- `randomizer::chunkforframepos`: the first chunk whose global end lies
beyond `t` (`std::lower_bound` over the chunk ends, which are sorted), then
the containment check raising `LogicError`; dereferencing the end iterator
(no chunk found) is also modelled as the error case. -/
def chunkforframepos (cs : List RChunk) (t : Nat) : Option Nat :=
  match (List.range cs.length).find? (fun k => decide (t < (cs.getD k default).globalte)) with
  | none => none
  | some k =>
      if t < (cs.getD k default).globalts ∨ (cs.getD k default).globalte ≤ t then none
      else some k

/-- What one frame-mode `getbatch` call reports back: the logical frame
advance and the global frame positions returned for the requested subset. -/
structure BatchResult where
  framesadvanced : Nat
  frames : List Nat
deriving DecidableEq, Inhabited

/-- The frame-copy loop of frame-mode `getbatch`.  `cols` is the column count
the output was shrunk to (the subset frame count), checked by the break at the
top of the loop; a position whose chunk fails the window check of the inner
`requirerandomizedchunk` call is the `LogicError` case. -/
def gbLoopGo (refs : List SeqRef) (T wb we numsubsets subsetnum cols g : Nat) :
    Nat → Nat → Nat → List Nat → Option (List Nat)
  | 0, _, _, acc => some acc.reverse
  | rem + 1, jj, count, acc =>
      if cols ≤ count then some acc.reverse
      else
        let fr := refs.getD ((g + jj) % T) default
        if fr.chunkindex % numsubsets = subsetnum then
          if fr.chunkindex < wb ∨ we ≤ fr.chunkindex then none
          else gbLoopGo refs T wb we numsubsets subsetnum cols g rem (jj + 1) (count + 1)
            ((g + jj) :: acc)
        else gbLoopGo refs T wb we numsubsets subsetnum cols g rem (jj + 1) count acc

/-- Frame-mode `minibatchutterancesourcemulti::getbatch`: rebuild the sweep
state, clamp the request at the sweep end, locate the chunk window of the
covered range, count the subset frames (`subsetsizes`), and run the frame
loop.  Chunk residency acts here only through the window checks; paging and
residency themselves are modelled separately.  In utterance mode the release
build of the source leaves `mbframes` at 0 (the branch holds `assert(0)`). -/
def getbatchFM (R : RandFam) (fuel : Nat) (st0 : RngState) (framemode : Bool)
    (randomizationrange : Nat) (allchunks : List (List Nat))
    (globalts framesrequested subsetnum numsubsets : Nat) : Option BatchResult :=
  match lazyrandomization R fuel st0 framemode randomizationrange allchunks globalts with
  | none => none
  | some st =>
      if framemode then
        let T := (allchunks.map List.sum).sum
        let sweepts := st.sweep * T
        let sweepte := sweepts + T
        let globalte := min (globalts + framesrequested) sweepte
        let mbframes := globalte - globalts
        match chunkforframepos st.rchunks globalts,
            chunkforframepos st.rchunks (globalte - 1) with
        | some firstchunk, some lastchunk =>
            let wb := (st.rchunks.getD firstchunk default).windowbegin
            let we := (st.rchunks.getD lastchunk default).windowend
            let cols := ((List.range mbframes).filter (fun i =>
              decide ((st.refs.getD ((globalts + i) % T) default).chunkindex % numsubsets
                = subsetnum))).length
            match gbLoopGo st.refs T wb we numsubsets subsetnum cols globalts
                mbframes 0 0 [] with
            | none => none
            | some fs => some ⟨mbframes, fs⟩
        | _, _ => none
      else some ⟨0, []⟩

/-- Drive frame-mode `getbatch` across one sweep for one subset: start at the
sweep base, advance by the returned `framesadvanced`, and collect the returned
frame positions; `dfuel` bounds the number of calls. -/
def consumeSweepGo (R : RandFam) (fuel : Nat) (st0 : RngState)
    (randomizationrange : Nat) (allchunks : List (List Nat))
    (framesrequested subsetnum numsubsets sweepte : Nat) :
    Nat → Nat → Option (List Nat)
  | 0, g => if sweepte ≤ g then some [] else none
  | dfuel + 1, g =>
      if sweepte ≤ g then some []
      else
        match getbatchFM R fuel st0 true randomizationrange allchunks g
            framesrequested subsetnum numsubsets with
        | none => none
        | some r =>
            match consumeSweepGo R fuel st0 randomizationrange allchunks
                framesrequested subsetnum numsubsets sweepte dfuel
                (g + r.framesadvanced) with
            | none => none
            | some rest => some (r.frames ++ rest)

/-- The error outcomes of the pager. -/
inductive PagerErr
  | logicError
  | ioError
deriving DecidableEq

/-- Model of `msra::util::attempt(5, body)` around one stream's `requiredata`
call: `fails m a` tells whether attempt `a` of stream `m` fails; the wrapped
call succeeds as soon as one of the 5 attempts does. -/
def attemptOk (fails : Nat → Nat → Bool) (m : Nat) : Bool :=
  (List.range 5).any (fun a => ! fails m a)

/-- The load loop of `requirerandomizedchunk` over all streams for one chunk:
`numutts m` is the utterance count of stream `m`'s chunk (a virgin chunk makes
`requiredata` raise `LogicError`), `res` the per-stream residency of the
chunk.  A stream whose 5 attempts all fail propagates the read error (its own
partial data released by `requiredata`); earlier streams stay loaded. -/
def loadStreams (fails : Nat → Nat → Bool) (numutts : List Nat) (m : Nat)
    (res : List Bool) : Except PagerErr (List Bool) :=
  if m < res.length then
    if numutts.getD m 0 = 0 then .error .logicError
    else if attemptOk fails m then loadStreams fails numutts (m + 1) (res.set m true)
    else .error .ioError
  else .ok res
termination_by res.length - m
decreasing_by simp only [List.length_set]; omega

/-- `minibatchutterancesourcemulti::requirerandomizedchunk` for one chunk
index: the window check, then all-or-nothing paging across the streams.
`res m` is whether stream `m` has the chunk resident (`isinram`). -/
def requirerandomizedchunk (fails : Nat → Nat → Bool) (numutts : List Nat)
    (res : List Bool) (chunkindex windowbegin windowend : Nat) :
    Except PagerErr (Bool × List Bool) :=
  if chunkindex < windowbegin ∨ windowend ≤ chunkindex then .error .logicError
  else
    let numinram := res.countP id
    if numinram = res.length then .ok (false, res)
    else if numinram = 0 then
      match loadStreams fails numutts 0 res with
      | .error e => .error e
      | .ok res2 => .ok (true, res2)
    else .error .logicError

/-- The error outcomes of catalog construction. -/
inductive CErr
  | assertError
  | runtimeError
  | logicError
deriving DecidableEq

/-- The per-stream duration-probing loop of the constructor: walk the
utterances of stream `m`, raise on fewer than 2 frames, invalidate on more
than 65535 frames, record the canonical duration for stream 0, and invalidate
cross-stream duration mismatches (constructor, first `foreach_index(m, infiles)`
loop). -/
def probeStreamGo (m : Nat) : List Nat → Nat → List Nat → List Bool →
    Except CErr (List Nat × List Bool)
  | [], _, dur, valid => .ok (dur, valid)
  | f :: rest, i, dur, valid =>
      if f < 2 then .error .runtimeError
      else if 65535 < f then
        probeStreamGo m rest (i + 1) (dur.set i 0) (valid.set i false)
      else if m = 0 then
        probeStreamGo m rest (i + 1) (dur.set i f) (valid.set i true)
      else if dur.getD i 0 ≠ f then
        probeStreamGo m rest (i + 1) (dur.set i 0) (valid.set i false)
      else probeStreamGo m rest (i + 1) dur valid

/-- The loop over the feature streams of the duration-probing phase; streams
after the first must list the same number of utterances. -/
def probeStreamsGo (numutts : Nat) : List (List Nat) → Nat → List Nat → List Bool →
    Except CErr (List Nat × List Bool)
  | [], _, dur, valid => .ok (dur, valid)
  | s :: rest, m, dur, valid =>
      if 0 < m ∧ s.length ≠ numutts then .error .runtimeError
      else
        match probeStreamGo m s 0 dur valid with
        | .error e => .error e
        | .ok dv => probeStreamsGo numutts rest (m + 1) dv.1 dv.2

/-- Entry assertions and duration-validation phase of the constructor
(`minibatchutterancesourcemulti::minibatchutterancesourcemulti`, from the
entry `assert`s through the 50-percent invalid-utterance gate).  `infiles`
holds the probed frame count per stream and utterance; `debug` selects whether
`assert` statements are active.  The result carries the canonical durations
and the validity flags. -/
def probeDurations (debug : Bool) (infiles : List (List Nat))
    (leftcontext rightcontext : List Nat) (numlabelsets : Nat) :
    Except CErr (List Nat × List Bool) :=
  if debug ∧ ¬(infiles.length = 1 ∧ leftcontext.length = 1 ∧
      leftcontext.getD 0 1 = 0 ∧ rightcontext.length = 1 ∧
      rightcontext.getD 0 1 = 0 ∧ numlabelsets = 1) then .error .assertError
  else
    let numutts := (infiles.getD 0 []).length
    match probeStreamsGo numutts infiles 0 (List.replicate numutts 0)
        (List.replicate numutts true) with
    | .error e => .error e
    | .ok dv =>
        let invalidutts := dv.2.countP (fun b => ! b)
        if debug ∧ invalidutts ≠ 0 then .error .assertError
        else if dv.2.length / 2 < invalidutts then .error .runtimeError
        else .ok dv

/-- One label segment of an MLF entry: `(firstframe, numframes, classid,
phonestart)`. -/
structure LabSeg where
  firstframe : Nat
  numframes : Nat
  classid : Nat
  phonestart : Nat
deriving DecidableEq

/-- The size of the class-id type (`CLASSIDTYPE`, a 16-bit unsigned integer:
the cast check `e.classid != (CLASSIDTYPE) e.classid` rejects anything
wider). -/
def TWO16 : Nat := 65536

/-- The boundary marker `(CLASSIDTYPE) -1` appended after every utterance's
labels. -/
def SENTINEL : Nat := TWO16 - 1

/-- Expand one utterance's label segments into per-frame class ids and
per-frame phone-boundary marks (constructor, label-expansion loop), carrying
the expected next `firstframe` for the contiguity check; non-contiguous
segments, a class id at or above the declared dimension, and a class id not
fitting `CLASSIDTYPE` raise `RuntimeError`. -/
def expandSegs (udim : Nat) : List LabSeg → Nat → Except CErr (List Nat × List Nat)
  | [], _ => .ok ([], [])
  | e :: rest, expected =>
      if e.firstframe ≠ expected then .error .runtimeError
      else if udim ≤ e.classid then .error .runtimeError
      else if TWO16 ≤ e.classid then .error .runtimeError
      else
        match expandSegs udim rest (e.firstframe + e.numframes) with
        | .error er => .error er
        | .ok cb =>
            .ok (List.replicate e.numframes e.classid ++ cb.1,
              ((List.range e.numframes).map (fun t =>
                if e.phonestart ≠ 0 ∧ t = 0 then e.phonestart else 0)) ++ cb.2)

/-- One utterance as seen by the label-construction loop: its (already
validated) frame count, whether the MLF has an entry for its key, and that
entry's segments. -/
structure UttLab where
  frames : Nat
  haslabel : Bool
  segs : List LabSeg
deriving DecidableEq

/-- The catalog record of one accepted utterance: `classidsbegin` and its
frame count (`utterancedesc` restricted to what the label store uses). -/
structure CatUtt where
  classidsbegin : Nat
  numframes : Nat
deriving DecidableEq

/-- The flat label store of one label stream: class ids, phone boundaries, and
the accepted utterances. -/
structure LabelStore where
  cids : List Nat
  bnds : List Nat
  catalog : List CatUtt
deriving DecidableEq

/-- The label duration of an MLF entry:
`labseq.back().firstframe + labseq.back().numframes`, 0 when empty. -/
def labframesOf (segs : List LabSeg) : Nat :=
  match segs.getLast? with
  | none => 0
  | some e => e.firstframe + e.numframes

/-- The supervised label-construction loop of the constructor, restricted to
one label stream: per utterance in order, record `classidsbegin` at the
current vector length, skip the utterance non-fatally when the label entry is
missing or its duration disagrees with the feature duration, and otherwise
append its per-frame ids followed by the boundary marker to both flat vectors
and check the running length invariant (`classids[] out of sync` is
`LogicError`).  `tf` and `cnt` carry `_totalframes` and the accepted-utterance
count. -/
def buildLabelsGo (udim : Nat) : List UttLab → LabelStore → Nat → Nat →
    Except CErr LabelStore
  | [], store, _, _ => .ok store
  | u :: rest, store, tf, cnt =>
      let cb := store.cids.length
      if ¬ u.haslabel then buildLabelsGo udim rest store tf cnt
      else if labframesOf u.segs ≠ u.frames then buildLabelsGo udim rest store tf cnt
      else
        match expandSegs udim u.segs 0 with
        | .error e => .error e
        | .ok cbs =>
            let store2 : LabelStore :=
              ⟨store.cids ++ cbs.1 ++ [SENTINEL], store.bnds ++ cbs.2 ++ [SENTINEL],
                store.catalog ++ [⟨cb, u.frames⟩]⟩
            if store2.cids.length ≠ tf + u.frames + (cnt + 1) then .error .logicError
            else buildLabelsGo udim rest store2 (tf + u.frames) (cnt + 1)

/-- Build the label store of one label stream from scratch. -/
def buildLabels (udim : Nat) (utts : List UttLab) : Except CErr LabelStore :=
  buildLabelsGo udim utts ⟨[], [], []⟩ 0 0

/-- `minibatchutterancesourcemulti::getclassids` for one label stream in the
supervised case: check the boundary marker one past the utterance's labels
(`LogicError` when it does not hold) and return the `shiftedvector` view of
exactly `n` labels. -/
def getclassidsM (cids : List Nat) (classidsbegin n : Nat) : Except CErr (List Nat) :=
  if cids.getD (classidsbegin + n) 0 ≠ SENTINEL then .error .logicError
  else .ok ((cids.drop classidsbegin).take n)

/-- `minibatchutterancesourcemulti::getphonebound`, structurally identical to
`getclassids` on the phone-boundary vector. -/
def getphoneboundM (bnds : List Nat) (classidsbegin n : Nat) : Except CErr (List Nat) :=
  if bnds.getD (classidsbegin + n) 0 ≠ SENTINEL then .error .logicError
  else .ok ((bnds.drop classidsbegin).take n)

/-- Every sequence position holds a sequence that is valid for it (the
property maintained by the constrained shuffle and tested by the
self-check). -/
def ValidAllP (cs : List RChunk) (posdefs : List Nat) (refs : List SeqRef) : Prop :=
  ∀ p, p < refs.length → validAtB cs (posdefs.getD p 0) (refs.getD p default) = true

/-- The identifying triple of a sequence: chunk index, utterance index, frame
index. -/
def SeqRef.triple (r : SeqRef) : Nat × Nat × Nat :=
  (r.chunkindex, r.utteranceindex, r.frameindex)

/-- A fixed raw random stream used by the concrete witnesses. -/
def R0 : RandFam := fun _ _ => 0

/-- A fixed initial generator state used by the concrete witnesses. -/
def rng0 : RngState := ⟨0, 0⟩

/-- A small concrete chunk catalog used by the witnesses: two chunks, one with
utterances of 2 and 1 frames, one with a 3-frame utterance. -/
def exChunks : List (List Nat) := [[2, 1], [3]]

/-- The randomization state of sweep 0 of the witness corpus (frame mode,
randomization range 12). -/
def exState : RandState := (lazyrandomization R0 4 rng0 true 12 exChunks 0).getD default

end CNTKSource

namespace CNTKSource

theorem length_lswap (d : α) (l : List α) (i j : Nat) :
    (lswap d l i j).length = l.length := by
  unfold lswap; split <;> simp

theorem consSetPerm (d a : α) (t : List α) : ∀ (m : Nat), m < t.length →
    List.Perm (t.getD m d :: t.set m a) (a :: t) := by
  induction t with
  | nil => intro m hm; simp at hm
  | cons b t ih =>
      intro m hm
      cases m with
      | zero => simpa using List.Perm.swap a b t
      | succ m =>
          have hm' : m < t.length := by simpa using hm
          simp only [List.getD_cons_succ, List.set_cons_succ]
          exact ((List.Perm.swap b (t.getD m d) _).trans
            ((ih m hm').cons b)).trans (List.Perm.swap a b t)

theorem lswap_perm (d : α) (l : List α) (i j : Nat) : (lswap d l i j).Perm l := by
  unfold lswap
  split
  case isFalse => exact List.Perm.refl _
  case isTrue h =>
    induction l generalizing i j with
    | nil => simp at h
    | cons a t ih =>
        cases i with
        | zero =>
            cases j with
            | zero => simp
            | succ m =>
                have hm : m < t.length := by simpa using h.2
                simpa using consSetPerm d a t m hm
        | succ m =>
            cases j with
            | zero =>
                have hm : m < t.length := by simpa using h.1
                simpa using consSetPerm d a t m hm
            | succ k =>
                have h' : m < t.length ∧ k < t.length := by
                  constructor
                  · simpa using h.1
                  · simpa using h.2
                simpa using (ih m k h').cons a

theorem shuffleStep_perm (R : RandFam) (d : α) (n : Nat) (p : List α × RngState)
    (i : Nat) : (shuffleStep R d n p i).1.Perm p.1 := by
  unfold shuffleStep
  dsimp only
  split
  · exact List.Perm.refl _
  · exact lswap_perm d p.1 i _

theorem foldl_shuffleStep_perm (R : RandFam) (d : α) (n : Nat) :
    ∀ (is : List Nat) (p : List α × RngState),
      (is.foldl (shuffleStep R d n) p).1.Perm p.1 := by
  intro is
  induction is with
  | nil => intro p; exact List.Perm.refl _
  | cons i is ih =>
      intro p
      exact (ih (shuffleStep R d n p i)).trans (shuffleStep_perm R d n p i)

theorem randomshuffle_perm (R : RandFam) (d : α) (v : List α) (st0 : RngState)
    (seed : Nat) : (randomshuffle R d v st0 seed).1.Perm v :=
  foldl_shuffleStep_perm R d v.length (List.range v.length) (v, srandM st0 seed)

/-- C2. Randomization is a deterministic function of the sweep index and the
corpus: with the C runtime generator modelled as an explicit seeded stream,
`lazyrandomization` re-seeds with `sweep` for the chunk shuffle and with
`sweep + 1` for the sequence shuffle, so its entire output (randomized
sequence, `globalts` assignments, chunk windows) does not depend on the
generator state the call started from — two executions for the same sweep and
chunk catalog produce identical randomization state. -/
theorem c2_sweep_determinism (R : RandFam) (fuel : Nat) (st0 st1 : RngState)
    (framemode : Bool) (randomizationrange : Nat) (allchunks : List (List Nat))
    (globalts : Nat) :
    lazyrandomization R fuel st0 framemode randomizationrange allchunks globalts =
      lazyrandomization R fuel st1 framemode randomizationrange allchunks globalts := rfl

theorem loadStreams_all_ok (fails : Nat → Nat → Bool) (numutts : List Nat) :
    ∀ (k m : Nat) (res : List Bool), res.length - m = k →
    (∀ p, m ≤ p → p < res.length → ¬ numutts.getD p 0 = 0) →
    (∀ p, m ≤ p → p < res.length → attemptOk fails p = true) →
    ∃ res2, loadStreams fails numutts m res = .ok res2 ∧ res2.length = res.length ∧
      ∀ p, p < res.length →
        res2.getD p false = (if m ≤ p then true else res.getD p false) := by
  intro k
  induction k with
  | zero =>
      intro m res hk _ _
      refine ⟨res, ?_, rfl, ?_⟩
      · rw [loadStreams]; rw [if_neg (by omega)]
      · intro p hp
        rw [if_neg (by omega)]
  | succ k ih =>
      intro m res hk hnu hat
      have hm : m < res.length := by omega
      obtain ⟨res2, h1, h2, h3⟩ := ih (m + 1) (res.set m true)
        (by simp only [List.length_set]; omega)
        (by intro p h h'; exact hnu p (by omega) (by simpa using h'))
        (by intro p h h'; exact hat p (by omega) (by simpa using h'))
      refine ⟨res2, ?_, by simpa using h2, ?_⟩
      · rw [loadStreams]
        rw [if_pos hm, if_neg (hnu m le_rfl hm), if_pos (hat m le_rfl hm)]
        exact h1
      · intro p hp
        have hp' : p < (res.set m true).length := by simpa using hp
        rcases Nat.lt_trichotomy p m with h | h | h
        · rw [h3 p hp', if_neg (by omega), if_neg (by omega)]
          rw [List.getD_eq_getElem?_getD, List.getD_eq_getElem?_getD,
            List.getElem?_set_ne (by omega)]
        · subst h
          rw [h3 p hp', if_neg (by omega), if_pos le_rfl]
          rw [List.getD_eq_getElem?_getD, List.getElem?_set_self hp]
          rfl
        · rw [h3 p hp', if_pos (by omega), if_pos (by omega)]

/-- C7. `requirerandomizedchunk(k, windowBegin, windowEnd)` raises a fatal
logic error whenever `k` lies outside `[windowBegin, windowEnd)`; inside the
window, if the chunk is resident on all streams it returns `false` and loads
nothing, if it is resident on no stream it loads it for every stream (each
load wrapped in the 5-attempt retry, assumed here to succeed within the
retries, on chunks that are not virgin) and returns `true`, and any other
residency count raises a fatal logic error. -/
theorem c7_require_chunk (fails : Nat → Nat → Bool) (numutts : List Nat)
    (res : List Bool) (k wb we : Nat) (hS : 0 < res.length) :
    ((k < wb ∨ we ≤ k) →
      requirerandomizedchunk fails numutts res k wb we = .error .logicError) ∧
    (wb ≤ k → k < we → (∀ m, m < res.length → res.getD m false = true) →
      requirerandomizedchunk fails numutts res k wb we = .ok (false, res)) ∧
    (wb ≤ k → k < we → (∀ m, m < res.length → res.getD m false = false) →
      (∀ m, m < res.length → ¬ numutts.getD m 0 = 0) →
      (∀ m, m < res.length → attemptOk fails m = true) →
      ∃ res2, requirerandomizedchunk fails numutts res k wb we = .ok (true, res2) ∧
        res2.length = res.length ∧ ∀ m, m < res.length → res2.getD m false = true) ∧
    (wb ≤ k → k < we → (∃ m, m < res.length ∧ res.getD m false = true) →
      (∃ m, m < res.length ∧ res.getD m false = false) →
      requirerandomizedchunk fails numutts res k wb we = .error .logicError) := by
  refine ⟨?_, ?_, ?_, ?_⟩
  · intro hout
    unfold requirerandomizedchunk
    rw [if_pos hout]
  · intro h1 h2 hall
    unfold requirerandomizedchunk
    rw [if_neg (by omega)]
    have : res.countP id = res.length := by
      rw [List.countP_eq_length]
      intro b hb
      obtain ⟨i, hi, rfl⟩ := List.mem_iff_getElem.mp hb
      have := hall i hi
      rwa [List.getD_eq_getElem _ _ hi] at this
    simp only [this, if_pos rfl]
    simp
  · intro h1 h2 hnone hnu hat
    obtain ⟨res2, hl1, hl2, hl3⟩ := loadStreams_all_ok fails numutts
      (res.length - 0) 0 res rfl (fun p _ hp => hnu p hp) (fun p _ hp => hat p hp)
    refine ⟨res2, ?_, hl2, fun m hm => by simpa using hl3 m hm⟩
    unfold requirerandomizedchunk
    rw [if_neg (by omega)]
    have hzero : res.countP id = 0 := by
      rw [List.countP_eq_zero]
      intro b hb
      obtain ⟨i, hi, rfl⟩ := List.mem_iff_getElem.mp hb
      have := hnone i hi
      rw [List.getD_eq_getElem _ _ hi] at this
      simp [this]
    have hne : res.countP id ≠ res.length := by omega
    simp only [hzero, if_neg (by omega : ¬ (0 : Nat) = res.length), if_pos rfl, hl1]
    simp
  · intro h1 h2 hsome hfalse
    unfold requirerandomizedchunk
    rw [if_neg (by omega)]
    obtain ⟨i, hi, hit⟩ := hsome
    obtain ⟨j, hj, hjf⟩ := hfalse
    have hpos : 0 < res.countP id := by
      rw [List.countP_pos_iff]
      refine ⟨res[i], List.getElem_mem hi, ?_⟩
      rw [List.getD_eq_getElem _ _ hi] at hit
      simp [hit]
    have hlt : res.countP id < res.length := by
      have hle := List.countP_le_length (p := id) (l := res)
      rcases Nat.lt_or_ge (res.countP id) res.length with h | h
      · exact h
      · exfalso
        have hcnt : res.countP id = res.length := le_antisymm hle h
        rw [List.countP_eq_length] at hcnt
        have := hcnt res[j] (List.getElem_mem hj)
        rw [List.getD_eq_getElem _ _ hj] at hjf
        simp [hjf] at this
    simp only [if_neg (by omega : ¬ res.countP id = res.length),
      if_neg (by omega : ¬ res.countP id = 0)]

/-- Witness for C7: a two-stream pager with both branches of the residency
logic exercised at a concrete chunk and window. -/
theorem c7_require_chunk_witness :
    0 < ([false, false] : List Bool).length ∧
    (((3 < 2 ∨ 5 ≤ 3) →
      requirerandomizedchunk (fun _ _ => false) [2, 2] [false, false] 3 2 5 =
        .error .logicError) ∧
    (2 ≤ 3 → 3 < 5 →
      (∀ m, m < ([false, false] : List Bool).length →
        ([false, false] : List Bool).getD m false = true) →
      requirerandomizedchunk (fun _ _ => false) [2, 2] [false, false] 3 2 5 =
        .ok (false, [false, false])) ∧
    (2 ≤ 3 → 3 < 5 →
      (∀ m, m < ([false, false] : List Bool).length →
        ([false, false] : List Bool).getD m false = false) →
      (∀ m, m < ([false, false] : List Bool).length → ¬ ([2, 2] : List Nat).getD m 0 = 0) →
      (∀ m, m < ([false, false] : List Bool).length →
        attemptOk (fun _ _ => false) m = true) →
      ∃ res2, requirerandomizedchunk (fun _ _ => false) [2, 2] [false, false] 3 2 5 =
          .ok (true, res2) ∧
        res2.length = ([false, false] : List Bool).length ∧
        ∀ m, m < ([false, false] : List Bool).length → res2.getD m false = true) ∧
    (2 ≤ 3 → 3 < 5 →
      (∃ m, m < ([false, false] : List Bool).length ∧
        ([false, false] : List Bool).getD m false = true) →
      (∃ m, m < ([false, false] : List Bool).length ∧
        ([false, false] : List Bool).getD m false = false) →
      requirerandomizedchunk (fun _ _ => false) [2, 2] [false, false] 3 2 5 =
        .error .logicError)) :=
  ⟨by decide, c7_require_chunk (fun _ _ => false) [2, 2] [false, false] 3 2 5 (by decide)⟩

/-- C10. The constructor's entry assertions require exactly one feature
stream, exactly one label stream, and zero left and right context widths; any
input violating them makes construction fail the assertion (with assertions
active) before any catalog is built. -/
theorem c10_entry_asserts (infiles : List (List Nat))
    (leftcontext rightcontext : List Nat) (numlabelsets : Nat)
    (h : ¬(infiles.length = 1 ∧ leftcontext.length = 1 ∧
      leftcontext.getD 0 1 = 0 ∧ rightcontext.length = 1 ∧
      rightcontext.getD 0 1 = 0 ∧ numlabelsets = 1)) :
    probeDurations true infiles leftcontext rightcontext numlabelsets =
      .error .assertError := by
  unfold probeDurations
  rw [if_pos ⟨rfl, h⟩]

/-- Witness for C10: two feature streams violate the entry assertion. -/
theorem c10_entry_asserts_witness :
    ¬((([[5], [5]] : List (List Nat))).length = 1 ∧
      ([0] : List Nat).length = 1 ∧ ([0] : List Nat).getD 0 1 = 0 ∧
      ([0] : List Nat).length = 1 ∧ ([0] : List Nat).getD 0 1 = 0 ∧ (1 : Nat) = 1) ∧
    probeDurations true [[5], [5]] [0] [0] 1 = .error .assertError :=
  ⟨by decide, c10_entry_asserts [[5], [5]] [0] [0] 1 (by decide)⟩

theorem set_append_cons (pre : List α) (x v : α) (rest : List α) :
    (pre ++ x :: rest).set pre.length v = pre ++ v :: rest := by
  induction pre with
  | nil => simp
  | cons a t ih => simp [ih]

/-- C8 counterexample.  The claim asserts that an utterance with fewer than 2
probed frames is handled non-fatally (marked invalid, counted, skipped) and
that construction succeeds when invalid utterances stay at or below 50
percent.  On the input below, one 1-frame utterance among three (33 percent),
the constructor raises the fatal
`RuntimeError("utterances < 2 frames not supported")` instead. -/
theorem c8_counterexample :
    probeDurations false [[1, 5, 5]] [0] [0] 1 = .error .runtimeError := rfl

theorem probeStream0_ok (ds : List Nat) (h2 : ∀ d ∈ ds, 2 ≤ d) :
    ∀ (pre : List Nat) (prev : List Bool), prev.length = pre.length →
    probeStreamGo 0 ds pre.length (pre ++ List.replicate ds.length 0)
        (prev ++ List.replicate ds.length true) =
      .ok (pre ++ ds.map (fun d => if 65535 < d then 0 else d),
        prev ++ ds.map (fun d => decide (d ≤ 65535))) := by
  induction ds with
  | nil => intro pre prev _; simp [probeStreamGo]
  | cons d ds ih =>
      intro pre prev hlen
      have hd : 2 ≤ d := h2 d (by simp)
      have hds : ∀ x ∈ ds, 2 ≤ x := fun x hx => h2 x (by simp [hx])
      simp only [List.length_cons, List.replicate_succ, probeStreamGo]
      rw [if_neg (by omega)]
      by_cases hbig : 65535 < d
      · rw [if_pos hbig]
        have hsd : (pre ++ (0 : Nat) :: List.replicate ds.length 0).set pre.length 0 =
            (pre ++ [0]) ++ List.replicate ds.length 0 := by
          rw [set_append_cons]; simp
        have hsv : (prev ++ true :: List.replicate ds.length true).set pre.length false =
            (prev ++ [false]) ++ List.replicate ds.length true := by
          rw [← hlen, set_append_cons]; simp
        rw [hsd, hsv, show pre.length + 1 = (pre ++ [(0 : Nat)]).length by simp]
        rw [ih hds (pre ++ [0]) (prev ++ [false]) (by simp [hlen])]
        simp [hbig, Nat.not_le.mpr hbig]
      · rw [if_neg hbig]
        simp only [if_pos trivial, if_true]
        have hsd : (pre ++ (0 : Nat) :: List.replicate ds.length 0).set pre.length d =
            (pre ++ [d]) ++ List.replicate ds.length 0 := by
          rw [set_append_cons]; simp
        have hsv : (prev ++ true :: List.replicate ds.length true).set pre.length true =
            (prev ++ [true]) ++ List.replicate ds.length true := by
          rw [← hlen, set_append_cons]; simp
        rw [hsd, hsv, show pre.length + 1 = (pre ++ [d]).length by simp]
        rw [ih hds (pre ++ [d]) (prev ++ [true]) (by simp [hlen])]
        have hle : d ≤ 65535 := Nat.not_lt.mp hbig
        simp [hbig, hle]

/-- C8 (amended).  During catalog construction with assertions inactive and a
single feature stream, an utterance whose probed frame count is below 2 is
fatal (a runtime error), not a skip; an utterance with more than 65535 frames
is handled non-fatally — marked invalid, counted, skipped — and the
duration-validation phase succeeds exactly when the invalid utterances do not
exceed 50 percent of the total. -/
theorem c8_overlong_nonfatal (ds : List Nat) (h2 : ∀ d ∈ ds, 2 ≤ d) :
    probeDurations false [ds] [0] [0] 1 =
      (if ds.length / 2 < ds.countP (fun d => decide (65535 < d)) then
        .error .runtimeError
      else .ok (ds.map (fun d => if 65535 < d then 0 else d),
        ds.map (fun d => decide (d ≤ 65535)))) := by
  unfold probeDurations
  rw [if_neg (by simp)]
  simp only [List.getD_cons_zero, probeStreamsGo]
  rw [if_neg (by simp)]
  have h0 := probeStream0_ok ds h2 [] [] rfl
  simp only [List.nil_append, List.length_nil] at h0
  rw [h0]
  simp only [probeStreamsGo]
  have hcnt : (ds.map (fun d => decide (d ≤ 65535))).countP (fun b => ! b) =
      ds.countP (fun d => decide (65535 < d)) := by
    rw [List.countP_map]
    apply List.countP_congr
    intro d _
    simp only [Function.comp_apply, Bool.not_eq_true', decide_eq_false_iff_not,
      decide_eq_true_eq]
    omega
  have hlenm : (ds.map (fun d => decide (d ≤ 65535))).length = ds.length := by simp
  rw [if_neg (by simp), hcnt, hlenm]

theorem expandSegs_len (udim : Nat) :
    ∀ (segs : List LabSeg) (e : Nat) (cb : List Nat × List Nat),
    expandSegs udim segs e = .ok cb → cb.2.length = cb.1.length := by
  intro segs
  induction segs with
  | nil =>
      intro e cb h
      simp only [expandSegs] at h
      cases h
      simp
  | cons s rest ih =>
      intro e cb h
      simp only [expandSegs] at h
      split at h
      · cases h
      · split at h
        · cases h
        · split at h
          · cases h
          · split at h
            next heq => cases h
            next cb' heq =>
              cases h
              have := ih (s.firstframe + s.numframes) cb' heq
              simp [this]

theorem buildLabelsGo_inv (udim : Nat) :
    ∀ (utts : List UttLab) (store : LabelStore) (tf cnt : Nat) (out : LabelStore),
    store.cids.length = tf + cnt →
    store.bnds.length = store.cids.length →
    (∀ cu ∈ store.catalog, cu.classidsbegin + cu.numframes < store.cids.length ∧
      store.cids.getD (cu.classidsbegin + cu.numframes) 0 = SENTINEL ∧
      store.bnds.getD (cu.classidsbegin + cu.numframes) 0 = SENTINEL) →
    buildLabelsGo udim utts store tf cnt = .ok out →
    ∀ cu ∈ out.catalog, cu.classidsbegin + cu.numframes < out.cids.length ∧
      out.cids.getD (cu.classidsbegin + cu.numframes) 0 = SENTINEL ∧
      out.bnds.getD (cu.classidsbegin + cu.numframes) 0 = SENTINEL := by
  intro utts
  induction utts with
  | nil =>
      intro store tf cnt out _ _ hcat hok
      simp only [buildLabelsGo] at hok
      cases hok
      exact hcat
  | cons u rest ih =>
      intro store tf cnt out hlen hbl hcat hok
      simp only [buildLabelsGo] at hok
      split at hok
      · exact ih store tf cnt out hlen hbl hcat hok
      · split at hok
        · exact ih store tf cnt out hlen hbl hcat hok
        · split at hok
          · cases hok
          next cbs heq =>
            split at hok
            · cases hok
            next hlc =>
              push_neg at hlc
              have hbslen : cbs.2.length = cbs.1.length := expandSegs_len udim u.segs 0 cbs heq
              have hcs : cbs.1.length = u.frames := by
                simp only [List.length_append, List.length_cons, List.length_nil] at hlc
                omega
              refine ih _ _ _ out ?_ ?_ ?_ hok
              · simp only [List.length_append, List.length_cons, List.length_nil]
                omega
              · simp only [List.length_append, hbl, hbslen]
              · intro cu hcu
                simp only [List.mem_append, List.mem_singleton] at hcu
                rcases hcu with hold | hnew
                · obtain ⟨hlt, hc, hb⟩ := hcat cu hold
                  refine ⟨by simp only [List.length_append]; omega, ?_, ?_⟩
                  · show (store.cids ++ cbs.1 ++ [SENTINEL]).getD
                        (cu.classidsbegin + cu.numframes) 0 = SENTINEL
                    rw [List.getD_eq_getElem?_getD, List.append_assoc,
                      List.getElem?_append_left hlt, ← List.getD_eq_getElem?_getD]
                    exact hc
                  · have hlt' : cu.classidsbegin + cu.numframes < store.bnds.length := by
                      omega
                    show (store.bnds ++ cbs.2 ++ [SENTINEL]).getD
                        (cu.classidsbegin + cu.numframes) 0 = SENTINEL
                    rw [List.getD_eq_getElem?_getD, List.append_assoc,
                      List.getElem?_append_left hlt', ← List.getD_eq_getElem?_getD]
                    exact hb
                · subst hnew
                  have hpos : store.cids.length + u.frames =
                      store.cids.length + cbs.1.length := by omega
                  refine ⟨?_, ?_, ?_⟩
                  · show store.cids.length + u.frames <
                        (store.cids ++ cbs.1 ++ [SENTINEL]).length
                    simp only [List.length_append, List.length_cons, List.length_nil]
                    omega
                  · show (store.cids ++ cbs.1 ++ [SENTINEL]).getD
                        (store.cids.length + u.frames) 0 = SENTINEL
                    rw [List.getD_eq_getElem?_getD, hpos, List.append_assoc,
                      List.getElem?_append_right (by simp)]
                    have h1 : store.cids.length + cbs.1.length - store.cids.length =
                        cbs.1.length := by omega
                    rw [h1, List.getElem?_append_right le_rfl]
                    simp
                  · show (store.bnds ++ cbs.2 ++ [SENTINEL]).getD
                        (store.cids.length + u.frames) 0 = SENTINEL
                    rw [List.getD_eq_getElem?_getD, hpos, List.append_assoc,
                      List.getElem?_append_right (by rw [hbl]; omega)]
                    have h1 : store.cids.length + cbs.1.length - store.bnds.length =
                        cbs.2.length := by omega
                    rw [h1, List.getElem?_append_right le_rfl]
                    simp

/-- C9. In a successfully built supervised label store, every catalog
utterance has the sentinel `(CLASSIDTYPE) -1` stored at position
`classidsbegin + numframes` of the class-id vector and likewise of the
phone-boundary vector; `getclassids` (resp. `getphonebound`) raises a logic
error exactly when that sentinel check fails, so for catalog utterances the
error branch is unreachable and a view of exactly `numframes` labels is
returned. -/
theorem c9_label_sentinel (udim : Nat) (utts : List UttLab) (out : LabelStore)
    (hok : buildLabels udim utts = .ok out) :
    (∀ cu ∈ out.catalog,
      out.cids.getD (cu.classidsbegin + cu.numframes) 0 = SENTINEL ∧
      out.bnds.getD (cu.classidsbegin + cu.numframes) 0 = SENTINEL ∧
      getclassidsM out.cids cu.classidsbegin cu.numframes =
        .ok ((out.cids.drop cu.classidsbegin).take cu.numframes) ∧
      ((out.cids.drop cu.classidsbegin).take cu.numframes).length = cu.numframes ∧
      getphoneboundM out.bnds cu.classidsbegin cu.numframes =
        .ok ((out.bnds.drop cu.classidsbegin).take cu.numframes) ∧
      ((out.bnds.drop cu.classidsbegin).take cu.numframes).length = cu.numframes) ∧
    (∀ (cids : List Nat) (b n : Nat),
      (∃ e, getclassidsM cids b n = .error e) ↔ cids.getD (b + n) 0 ≠ SENTINEL) := by
  have hbl : ∀ (utts2 : List UttLab) (store : LabelStore) (tf cnt : Nat),
      buildLabelsGo udim utts2 store tf cnt = .ok out →
      store.bnds.length = store.cids.length → out.bnds.length = out.cids.length := by
    intro utts2
    induction utts2 with
    | nil =>
        intro store tf cnt h hb
        simp only [buildLabelsGo] at h
        cases h
        exact hb
    | cons u rest ih =>
        intro store tf cnt h hb
        simp only [buildLabelsGo] at h
        split at h
        · exact ih _ _ _ h hb
        · split at h
          · exact ih _ _ _ h hb
          · split at h
            · cases h
            next cbs heq =>
              split at h
              · cases h
              · refine ih _ _ _ h ?_
                have hel := expandSegs_len udim u.segs 0 cbs heq
                simp [hb, hel]
  constructor
  · intro cu hcu
    have hmain := buildLabelsGo_inv udim utts ⟨[], [], []⟩ 0 0 out rfl rfl
      (by intro cu h; simp at h) hok cu hcu
    obtain ⟨hlt, hc, hb⟩ := hmain
    have hblen : out.bnds.length = out.cids.length :=
      hbl utts ⟨[], [], []⟩ 0 0 hok rfl
    have hvl : ((out.cids.drop cu.classidsbegin).take cu.numframes).length =
        cu.numframes := by
      simp only [List.length_take, List.length_drop]
      omega
    have hvl2 : ((out.bnds.drop cu.classidsbegin).take cu.numframes).length =
        cu.numframes := by
      simp only [List.length_take, List.length_drop]
      omega
    refine ⟨hc, hb, ?_, hvl, ?_, hvl2⟩
    · unfold getclassidsM
      rw [if_neg (fun hne => hne hc)]
    · unfold getphoneboundM
      rw [if_neg (fun hne => hne hb)]
  · intro cids b n
    constructor
    · intro ⟨e, he⟩
      unfold getclassidsM at he
      by_contra h
      rw [if_neg (fun hne => hne h)] at he
      cases he
    · intro h
      refine ⟨.logicError, ?_⟩
      unfold getclassidsM
      rw [if_pos h]

/-- Witness for C9: a two-utterance supervised store built from concrete label
segments. -/
theorem c9_label_sentinel_witness :
    buildLabels 10 [⟨3, true, [⟨0, 2, 1, 7⟩, ⟨2, 1, 2, 0⟩]⟩, ⟨2, true, [⟨0, 2, 3, 0⟩]⟩] =
      .ok ⟨[1, 1, 2, 65535, 3, 3, 65535], [7, 0, 0, 65535, 0, 0, 65535],
        [⟨0, 3⟩, ⟨4, 2⟩]⟩ ∧
    ((∀ cu ∈ (⟨[1, 1, 2, 65535, 3, 3, 65535], [7, 0, 0, 65535, 0, 0, 65535],
        [⟨0, 3⟩, ⟨4, 2⟩]⟩ : LabelStore).catalog,
      ([1, 1, 2, 65535, 3, 3, 65535] : List Nat).getD
        (cu.classidsbegin + cu.numframes) 0 = SENTINEL ∧
      ([7, 0, 0, 65535, 0, 0, 65535] : List Nat).getD
        (cu.classidsbegin + cu.numframes) 0 = SENTINEL ∧
      getclassidsM [1, 1, 2, 65535, 3, 3, 65535] cu.classidsbegin cu.numframes =
        .ok ((([1, 1, 2, 65535, 3, 3, 65535] : List Nat).drop
          cu.classidsbegin).take cu.numframes) ∧
      ((([1, 1, 2, 65535, 3, 3, 65535] : List Nat).drop
        cu.classidsbegin).take cu.numframes).length = cu.numframes ∧
      getphoneboundM [7, 0, 0, 65535, 0, 0, 65535] cu.classidsbegin cu.numframes =
        .ok ((([7, 0, 0, 65535, 0, 0, 65535] : List Nat).drop
          cu.classidsbegin).take cu.numframes) ∧
      ((([7, 0, 0, 65535, 0, 0, 65535] : List Nat).drop
        cu.classidsbegin).take cu.numframes).length = cu.numframes) ∧
    (∀ (cids : List Nat) (b n : Nat),
      (∃ e, getclassidsM cids b n = .error e) ↔ cids.getD (b + n) 0 ≠ SENTINEL)) :=
  ⟨rfl,
    c9_label_sentinel 10 [⟨3, true, [⟨0, 2, 1, 7⟩, ⟨2, 1, 2, 0⟩]⟩, ⟨2, true, [⟨0, 2, 3, 0⟩]⟩]
      ⟨[1, 1, 2, 65535, 3, 3, 65535], [7, 0, 0, 65535, 0, 0, 65535], [⟨0, 3⟩, ⟨4, 2⟩]⟩
      rfl⟩

theorem map_range_getD (l : List α) (d : α) (g : α → β) :
    (List.range l.length).map (fun i => g (l.getD i d)) = l.map g := by
  apply List.ext_getElem
  · simp
  · intro n h1 h2
    simp only [List.getElem_map, List.getElem_range]
    rw [List.getD_eq_getElem l d (by simpa using h1)]

theorem map_range_getD_self (l : List α) (d : α) :
    (List.range l.length).map (fun i => l.getD i d) = l := by
  have h := map_range_getD l d (fun x => x)
  simpa using h

theorem sum_flatMapAux (f : α → List Nat) :
    ∀ l : List α, ((l.flatMap f).sum = (l.map (fun a => (f a).sum)).sum) := by
  intro l
  induction l with
  | nil => simp
  | cons a l ih => simp [List.flatMap_cons, List.sum_append, ih]

theorem wbAdvance_le (cs : List RChunk) (r2 k : Nat) :
    ∀ (fuel wb : Nat), wb ≤ k → k ≤ wb + fuel →
      wbAdvance cs ((cs.getD k default).globalts) r2 fuel wb ≤ k := by
  intro fuel
  induction fuel with
  | zero => intro wb h1 h2; simpa [wbAdvance] using h1
  | succ fuel ih =>
      intro wb h1 h2
      rw [wbAdvance]
      split
      next hcond =>
        have hne : wb ≠ k := by
          intro he
          subst he
          simp at hcond
        exact ih (wb + 1) (by omega) (by omega)
      next => exact h1

theorem weAdvance_ge (cs : List RChunk) (gtsk r2 : Nat) :
    ∀ (fuel we : Nat), we ≤ weAdvance cs gtsk r2 fuel we := by
  intro fuel
  induction fuel with
  | zero => intro we; simp [weAdvance]
  | succ fuel ih =>
      intro we
      rw [weAdvance]
      split
      · exact le_trans (by omega) (ih (we + 1))
      · exact le_rfl

theorem weAdvance_gt (cs : List RChunk) (r2 k : Nat) (hk : k < cs.length)
    (hsm : (cs.getD k default).numframes < r2) :
    ∀ (fuel we : Nat), 0 < fuel → k ≤ we →
      k < weAdvance cs ((cs.getD k default).globalts) r2 fuel we := by
  intro fuel we hf hwe
  rcases Nat.lt_or_ge k we with h | h
  · exact lt_of_lt_of_le h (weAdvance_ge cs _ r2 fuel we)
  · have hke : we = k := by omega
    subst hke
    obtain ⟨fuel', rfl⟩ := Nat.exists_eq_succ_of_ne_zero (by omega : fuel ≠ 0)
    rw [weAdvance]
    rw [if_pos ⟨hk, by
      show (cs.getD we default).globalte - (cs.getD we default).globalts < r2
      unfold RChunk.globalte
      omega⟩]
    exact lt_of_lt_of_le (by omega) (weAdvance_ge cs _ r2 fuel' (we + 1))

theorem computeWindowsGo_length (cs : List RChunk) (r2 : Nat) :
    ∀ (fuel k wb we : Nat), cs.length ≤ k + fuel →
      (computeWindowsGo cs r2 fuel k wb we).length = cs.length - k := by
  intro fuel
  induction fuel with
  | zero =>
      intro k wb we h
      simp only [computeWindowsGo, List.length_nil]
      omega
  | succ fuel ih =>
      intro k wb we h
      rw [computeWindowsGo]
      split
      next hk =>
        simp only [List.length_cons, ih (k + 1) _ _ (by omega)]
        omega
      next hk => simp; omega

theorem computeWindowsGo_fields (cs : List RChunk) (r2 : Nat) :
    ∀ (p fuel k wb we : Nat), k + p < cs.length → cs.length ≤ k + fuel →
      ((computeWindowsGo cs r2 fuel k wb we).getD p default).data =
        (cs.getD (k + p) default).data ∧
      ((computeWindowsGo cs r2 fuel k wb we).getD p default).utteranceposbegin =
        (cs.getD (k + p) default).utteranceposbegin ∧
      ((computeWindowsGo cs r2 fuel k wb we).getD p default).globalts =
        (cs.getD (k + p) default).globalts := by
  intro p
  induction p with
  | zero =>
      intro fuel k wb we h hf
      obtain ⟨fuel2, rfl⟩ := Nat.exists_eq_succ_of_ne_zero (by omega : fuel ≠ 0)
      rw [computeWindowsGo]
      rw [if_pos (by omega : k < cs.length)]
      simp
  | succ p ih =>
      intro fuel k wb we h hf
      obtain ⟨fuel2, rfl⟩ := Nat.exists_eq_succ_of_ne_zero (by omega : fuel ≠ 0)
      rw [computeWindowsGo]
      rw [if_pos (by omega : k < cs.length)]
      simp only [List.getD_cons_succ]
      have := ih fuel2 (k + 1)
        (wbAdvance cs ((cs.getD k default).globalts) r2 cs.length wb)
        (weAdvance cs ((cs.getD k default).globalts) r2 cs.length we)
        (by omega) (by omega)
      simpa [Nat.add_assoc, Nat.add_comm 1 p] using this

theorem computeWindowsGo_window (cs : List RChunk) (r2 : Nat)
    (hr : ∀ k, k < cs.length → (cs.getD k default).numframes < r2) :
    ∀ (p fuel k wb we : Nat), wb ≤ k → k ≤ we → k + p < cs.length →
      cs.length ≤ k + fuel →
      ((computeWindowsGo cs r2 fuel k wb we).getD p default).windowbegin ≤ k + p ∧
      k + p < ((computeWindowsGo cs r2 fuel k wb we).getD p default).windowend := by
  intro p
  induction p with
  | zero =>
      intro fuel k wb we h1 h2 h3 hf
      obtain ⟨fuel2, rfl⟩ := Nat.exists_eq_succ_of_ne_zero (by omega : fuel ≠ 0)
      rw [computeWindowsGo]
      rw [if_pos (by omega : k < cs.length)]
      simp only [List.getD_cons_zero, Nat.add_zero]
      constructor
      · exact wbAdvance_le cs r2 k cs.length wb h1 (by omega)
      · exact weAdvance_gt cs r2 k (by omega) (hr k (by omega)) cs.length we
          (by omega) h2
  | succ p ih =>
      intro fuel k wb we h1 h2 h3 hf
      obtain ⟨fuel2, rfl⟩ := Nat.exists_eq_succ_of_ne_zero (by omega : fuel ≠ 0)
      rw [computeWindowsGo]
      rw [if_pos (by omega : k < cs.length)]
      simp only [List.getD_cons_succ]
      have hwb := wbAdvance_le cs r2 k cs.length wb h1 (by omega)
      have hwe := weAdvance_gt cs r2 k (by omega) (hr k (by omega)) cs.length we
        (by omega) h2
      have := ih fuel2 (k + 1)
        (wbAdvance cs ((cs.getD k default).globalts) r2 cs.length wb)
        (weAdvance cs ((cs.getD k default).globalts) r2 cs.length we)
        (by omega) (by omega) (by omega) (by omega)
      simpa [Nat.add_assoc, Nat.add_comm 1 p] using this

theorem placeChunksGo_length :
    ∀ (l : List (List Nat)) (p t : Nat), (placeChunksGo l p t).length = l.length := by
  intro l
  induction l with
  | nil => intro p t; simp [placeChunksGo]
  | cons d rest ih => intro p t; simp [placeChunksGo, ih]

theorem placeChunksGo_getD_data :
    ∀ (l : List (List Nat)) (q p t : Nat), q < l.length →
      ((placeChunksGo l p t).getD q default).data = l.getD q [] := by
  intro l
  induction l with
  | nil => intro q p t h; simp at h
  | cons d rest ih =>
      intro q p t h
      cases q with
      | zero => simp [placeChunksGo]
      | succ q =>
          simp only [placeChunksGo, List.getD_cons_succ]
          exact ih q _ _ (by simpa using h)

theorem lswap_getD_left (d d2 : α) (l : List α) (i j : Nat)
    (hi : i < l.length) (hj : j < l.length) :
    (lswap d l i j).getD i d2 = l.getD j d2 := by
  unfold lswap
  rw [if_pos ⟨hi, hj⟩]
  by_cases he : i = j
  · subst he
    rw [List.set_set]
    rw [List.getD_eq_getElem?_getD, List.getElem?_set_self (by simpa using hi)]
    rw [List.getD_eq_getElem _ _ hi, List.getD_eq_getElem _ _ hi]
    rfl
  · rw [List.getD_eq_getElem?_getD, List.getElem?_set_ne (by omega),
      List.getElem?_set_self hi]
    rw [Option.getD_some, List.getD_eq_getElem l d2 hj]
    exact List.getD_eq_getElem l d hj

theorem lswap_getD_right (d d2 : α) (l : List α) (i j : Nat)
    (hi : i < l.length) (hj : j < l.length) :
    (lswap d l i j).getD j d2 = l.getD i d2 := by
  unfold lswap
  rw [if_pos ⟨hi, hj⟩]
  rw [List.getD_eq_getElem?_getD, List.getElem?_set_self (by simpa using hj)]
  rw [Option.getD_some, List.getD_eq_getElem l d2 hi]
  exact List.getD_eq_getElem l d hi

theorem lswap_getD_ne (d d2 : α) (l : List α) (i j p : Nat)
    (hpi : p ≠ i) (hpj : p ≠ j) :
    (lswap d l i j).getD p d2 = l.getD p d2 := by
  unfold lswap
  split
  · rw [List.getD_eq_getElem?_getD, List.getElem?_set_ne (by omega),
      List.getElem?_set_ne (by omega), ← List.getD_eq_getElem?_getD]
  · rfl

theorem validAll_lswap (cs : List RChunk) (posdefs : List Nat)
    (refs : List SeqRef) (i j : Nat)
    (hv : ValidAllP cs posdefs refs)
    (h1 : validAtB cs (posdefs.getD i 0) (refs.getD j default) = true)
    (h2 : validAtB cs (posdefs.getD j 0) (refs.getD i default) = true) :
    ValidAllP cs posdefs (lswap default refs i j) := by
  by_cases hg : i < refs.length ∧ j < refs.length
  · intro p hp
    rw [length_lswap] at hp
    by_cases hpi : p = i
    · subst hpi
      rw [lswap_getD_left default default refs p j hg.1 hg.2]
      exact h1
    · by_cases hpj : p = j
      · subst hpj
        rw [lswap_getD_right default default refs i p hg.1 hg.2]
        exact h2
      · rw [lswap_getD_ne default default refs i j p hpi hpj]
        exact hv p hp
  · have he : lswap default refs i j = refs := by
      unfold lswap
      rw [if_neg hg]
    rw [he]
    exact hv

theorem tryswapLoop_perm (R : RandFam) (cs : List RChunk) (posdefs : List Nat)
    (posbegin posend i : Nat) :
    ∀ (fuel : Nat) (refs : List SeqRef) (st : RngState),
      (tryswapLoop R cs posdefs posbegin posend i fuel refs st).1.Perm refs := by
  intro fuel
  induction fuel with
  | zero => intro refs st; simp [tryswapLoop]
  | succ fuel ih =>
      intro refs st
      rw [tryswapLoop]
      split
      · exact List.Perm.refl _
      · split
        · exact lswap_perm default refs i _
        · exact ih refs _

theorem tryswapLoop_valid (R : RandFam) (cs : List RChunk) (posdefs : List Nat)
    (posbegin posend i : Nat) :
    ∀ (fuel : Nat) (refs : List SeqRef) (st : RngState),
      ValidAllP cs posdefs refs →
      ValidAllP cs posdefs (tryswapLoop R cs posdefs posbegin posend i fuel refs st).1 := by
  intro fuel
  induction fuel with
  | zero => intro refs st hv; simpa [tryswapLoop] using hv
  | succ fuel ih =>
      intro refs st hv
      rw [tryswapLoop]
      split
      · exact hv
      · split
        next hcond =>
          rw [Bool.and_eq_true] at hcond
          exact validAll_lswap cs posdefs refs i _ hv hcond.1 hcond.2
        · exact ih refs _ hv

theorem shuffleRefsGo_perm (R : RandFam) (framemode : Bool) (cs : List RChunk)
    (posdefs : List Nat) (sweepts fuel n : Nat) :
    ∀ (fuel2 i : Nat) (refs : List SeqRef) (st : RngState),
      (shuffleRefsGo R framemode cs posdefs sweepts fuel n fuel2 i refs st).1.Perm
        refs := by
  intro fuel2
  induction fuel2 with
  | zero => intro i refs st; simp [shuffleRefsGo]
  | succ fuel2 ih =>
      intro i refs st
      rw [shuffleRefsGo]
      split
      next h =>
        exact (ih (i + 1) _ _).trans (tryswapLoop_perm R cs posdefs _ _ i fuel refs st)
      next h => exact List.Perm.refl _

theorem shuffleRefsGo_valid (R : RandFam) (framemode : Bool) (cs : List RChunk)
    (posdefs : List Nat) (sweepts fuel n : Nat) :
    ∀ (fuel2 i : Nat) (refs : List SeqRef) (st : RngState),
      ValidAllP cs posdefs refs →
      ValidAllP cs posdefs
        (shuffleRefsGo R framemode cs posdefs sweepts fuel n fuel2 i refs st).1 := by
  intro fuel2
  induction fuel2 with
  | zero => intro i refs st hv; simpa [shuffleRefsGo] using hv
  | succ fuel2 ih =>
      intro i refs st hv
      rw [shuffleRefsGo]
      split
      next h =>
        exact ih (i + 1) _ _ (tryswapLoop_valid R cs posdefs _ _ i fuel refs st hv)
      next h => exact hv

theorem finalizeRefsGo_length (framemode : Bool) (cs : List RChunk) :
    ∀ (t : Nat) (refs : List SeqRef),
      (finalizeRefsGo framemode cs t refs).length = refs.length := by
  intro t refs
  induction refs generalizing t with
  | nil => simp [finalizeRefsGo]
  | cons r rest ih => simp [finalizeRefsGo, ih]

theorem finalizeRefsGo_map_triple (framemode : Bool) (cs : List RChunk) :
    ∀ (t : Nat) (refs : List SeqRef),
      (finalizeRefsGo framemode cs t refs).map SeqRef.triple =
        refs.map SeqRef.triple := by
  intro t refs
  induction refs generalizing t with
  | nil => simp [finalizeRefsGo]
  | cons r rest ih => simp [finalizeRefsGo, ih, SeqRef.triple]

theorem finalizeRefsGo_getD_chunkindex (framemode : Bool) (cs : List RChunk) :
    ∀ (t : Nat) (refs : List SeqRef) (p : Nat),
      ((finalizeRefsGo framemode cs t refs).getD p default).chunkindex =
        (refs.getD p default).chunkindex := by
  intro t refs
  induction refs generalizing t with
  | nil => intro p; simp [finalizeRefsGo]
  | cons r rest ih =>
      intro p
      cases p with
      | zero => simp [finalizeRefsGo]
      | succ p => simp only [finalizeRefsGo, List.getD_cons_succ]; exact ih _ p

theorem finalizeRefsGo_getD_globalts (framemode : Bool) (cs : List RChunk) :
    ∀ (refs : List SeqRef) (t p : Nat), p < refs.length →
      ((finalizeRefsGo framemode cs t refs).getD p default).globalts =
        t + (((finalizeRefsGo framemode cs t refs).take p).map SeqRef.numframes).sum := by
  intro refs
  induction refs with
  | nil => intro t p h; simp at h
  | cons r rest ih =>
      intro t p h
      cases p with
      | zero => simp [finalizeRefsGo]
      | succ p =>
          simp only [finalizeRefsGo, List.getD_cons_succ, List.take_succ_cons,
            List.map_cons, List.sum_cons]
          rw [ih _ p (by simpa using h)]
          omega

theorem finalizeRefsGo_sum (framemode : Bool) (cs : List RChunk) :
    ∀ (refs : List SeqRef) (t : Nat),
      ((finalizeRefsGo framemode cs t refs).map SeqRef.numframes).sum =
        (refs.map (fun r => if framemode then 1
          else (cs.getD r.chunkindex default).data.getD r.utteranceindex 0)).sum := by
  intro refs
  induction refs with
  | nil => intro t; simp [finalizeRefsGo]
  | cons r rest ih =>
      intro t
      simp only [finalizeRefsGo, List.map_cons, List.sum_cons, ih]

theorem drop_last_eq (l : List Nat) : l ≠ [] →
    l.drop (l.length - 1) = [l.getD (l.length - 1) 0] := by
  induction l with
  | nil => intro h; exact absurd rfl h
  | cons x rest ih =>
      intro _
      cases rest with
      | nil => simp
      | cons y tl =>
          have h1 : (x :: y :: tl).length - 1 = (y :: tl).length := by simp
          rw [h1]
          have h2 : (x :: y :: tl).drop (y :: tl).length =
              (y :: tl).drop ((y :: tl).length - 1) := by
            simp only [List.length_cons]
            rfl
          rw [h2, ih (by simp)]
          simp only [List.length_cons, List.getD_cons_succ, Nat.add_sub_cancel]

theorem finalizeRefsGo_last (framemode : Bool) (cs : List RChunk)
    (refs : List SeqRef) (t : Nat) (hne : refs ≠ []) :
    ((finalizeRefsGo framemode cs t refs).getD
        ((finalizeRefsGo framemode cs t refs).length - 1) default).globalte =
      t + ((finalizeRefsGo framemode cs t refs).map SeqRef.numframes).sum := by
  have hl : (finalizeRefsGo framemode cs t refs).length = refs.length :=
    finalizeRefsGo_length framemode cs t refs
  have hpos : 0 < refs.length := List.length_pos.mpr hne
  have hlt : (finalizeRefsGo framemode cs t refs).length - 1 < refs.length := by omega
  unfold SeqRef.globalte
  rw [finalizeRefsGo_getD_globalts framemode cs refs t _ hlt]
  have hmn : ((finalizeRefsGo framemode cs t refs).map SeqRef.numframes) ≠ [] := by
    intro h
    have := congrArg List.length h
    simp only [List.length_map, hl, List.length_nil] at this
    omega
  have hlm : ((finalizeRefsGo framemode cs t refs).map SeqRef.numframes).length =
      (finalizeRefsGo framemode cs t refs).length := List.length_map _ _
  have hsum := List.sum_take_add_sum_drop
    ((finalizeRefsGo framemode cs t refs).map SeqRef.numframes)
    ((finalizeRefsGo framemode cs t refs).length - 1)
  have hdrop := drop_last_eq _ hmn
  rw [hlm] at hdrop
  rw [hdrop] at hsum
  simp only [List.sum_cons, List.sum_nil, Nat.add_zero] at hsum
  rw [← List.map_take] at hsum
  have hlt2 : (finalizeRefsGo framemode cs t refs).length - 1 <
      (finalizeRefsGo framemode cs t refs).length := by omega
  have hgd : ((finalizeRefsGo framemode cs t refs).map SeqRef.numframes).getD
      ((finalizeRefsGo framemode cs t refs).length - 1) 0 =
      ((finalizeRefsGo framemode cs t refs).getD
        ((finalizeRefsGo framemode cs t refs).length - 1) default).numframes := by
    rw [List.getD_eq_getElem _ 0 (by omega),
      List.getD_eq_getElem _ default hlt2, List.getElem_map]
  rw [hgd] at hsum
  omega

theorem posdefsList_map_eq (framemode : Bool) (cs : List RChunk) :
    (initialRefs framemode cs).map SeqRef.chunkindex = posdefsList framemode cs := by
  unfold initialRefs posdefsList
  rw [List.map_flatMap]
  congr 1
  funext k
  rw [List.map_map]
  rfl

theorem posdefsList_mem_lt (framemode : Bool) (cs : List RChunk) :
    ∀ x ∈ posdefsList framemode cs, x < cs.length := by
  intro x hx
  unfold posdefsList at hx
  rw [List.mem_flatMap] at hx
  obtain ⟨k, hk, hx⟩ := hx
  rw [List.mem_map] at hx
  obtain ⟨_, _, rfl⟩ := hx
  exact List.mem_range.mp hk

theorem initialRefs_length_eq (framemode : Bool) (cs : List RChunk) :
    (initialRefs framemode cs).length = (posdefsList framemode cs).length := by
  rw [← posdefsList_map_eq framemode cs, List.length_map]

theorem chunkSeqIdx_length (framemode : Bool) (dta : List Nat) :
    (chunkSeqIdx framemode dta).length = if framemode then dta.sum else dta.length := by
  unfold chunkSeqIdx
  rw [List.length_flatMap]
  cases framemode with
  | true =>
      simp only [if_true]
      have h1 : (List.range dta.length).map
          (List.length ∘ fun i => (List.range (dta.getD i 0)).map (fun m => (i, m))) =
          (List.range dta.length).map (fun i => dta.getD i 0) := by
        apply List.map_congr_left
        intro i _
        simp
      rw [h1, map_range_getD_self dta 0]
  | false =>
      simp only [Bool.false_eq_true, if_false]
      have h1 : (List.range dta.length).map
          (List.length ∘ fun i => (List.range 1).map (fun m => (i, m))) =
          (List.range dta.length).map (fun _ => 1) := by
        apply List.map_congr_left
        intro i _
        simp
      rw [h1]
      simp [List.map_const]

theorem initialRefs_length (framemode : Bool) (cs : List RChunk) :
    (initialRefs framemode cs).length =
      ((List.range cs.length).map (fun k =>
        if framemode then (cs.getD k default).data.sum
        else (cs.getD k default).data.length)).sum := by
  unfold initialRefs
  rw [List.length_flatMap]
  congr 1
  apply List.map_congr_left
  intro k _
  simp only [Function.comp_apply, List.length_map]
  exact chunkSeqIdx_length framemode _

theorem chunkSeqIdx_nf_sum (framemode : Bool) (dta : List Nat) :
    ((chunkSeqIdx framemode dta).map (fun im =>
      if framemode then 1 else dta.getD im.1 0)).sum = dta.sum := by
  cases framemode with
  | true =>
      simp only [if_true]
      rw [List.map_const', List.sum_replicate, smul_eq_mul, Nat.mul_one]
      rw [chunkSeqIdx_length]
      simp
  | false =>
      simp only [Bool.false_eq_true, if_false]
      unfold chunkSeqIdx
      rw [List.map_flatMap]
      rw [sum_flatMapAux]
      have h1 : (List.range dta.length).map (fun a =>
          (((List.range (if false then dta.getD a 0 else 1)).map
            (fun m => (a, m))).map (fun im => dta.getD im.1 0)).sum) =
          (List.range dta.length).map (fun a => dta.getD a 0) := by
        apply List.map_congr_left
        intro i _
        simp only [Bool.false_eq_true, if_false]
        rw [show List.range 1 = [0] from rfl]
        simp
      rw [h1, map_range_getD_self dta 0]

theorem checkRefs_of_valid (cs : List RChunk) (posdefs : List Nat)
    (refs : List SeqRef) (hlen : posdefs.length = refs.length)
    (hv : ValidAllP cs posdefs refs) : checkRefs cs posdefs refs = true := by
  unfold checkRefs
  rw [List.all_eq_true]
  intro x hx
  rw [List.mem_iff_getElem] at hx
  obtain ⟨p, hp, rfl⟩ := hx
  rw [List.getElem_zip]
  have hp2 : p < refs.length := by
    rw [List.length_zip] at hp
    omega
  have := hv p hp2
  rwa [List.getD_eq_getElem posdefs 0 (by omega),
    List.getD_eq_getElem refs default hp2] at this

theorem shuffledChunks_perm (R : RandFam) (st0 : RngState)
    (allchunks : List (List Nat)) (sweep : Nat) :
    (shuffledChunks R st0 allchunks sweep).Perm allchunks :=
  randomshuffle_perm R [] allchunks st0 sweep

theorem shuffledChunks_length (R : RandFam) (st0 : RngState)
    (allchunks : List (List Nat)) (sweep : Nat) :
    (shuffledChunks R st0 allchunks sweep).length = allchunks.length :=
  (shuffledChunks_perm R st0 allchunks sweep).length_eq

theorem rchunksOf_length (R : RandFam) (st0 : RngState) (randomizationrange : Nat)
    (allchunks : List (List Nat)) (sweep : Nat) :
    (rchunksOf R st0 randomizationrange allchunks sweep).length = allchunks.length := by
  unfold rchunksOf
  rw [computeWindowsGo_length _ _ _ 0 0 1 (by omega), placeChunksGo_length,
    shuffledChunks_length]
  omega

theorem rchunksOf_data (R : RandFam) (st0 : RngState) (randomizationrange : Nat)
    (allchunks : List (List Nat)) (sweep k : Nat) (hk : k < allchunks.length) :
    ((rchunksOf R st0 randomizationrange allchunks sweep).getD k default).data =
      (shuffledChunks R st0 allchunks sweep).getD k [] := by
  unfold rchunksOf
  have hk2 : 0 + k < (placeChunksGo (shuffledChunks R st0 allchunks sweep) 0
      (sweep * totalframesOf allchunks)).length := by
    rw [placeChunksGo_length, shuffledChunks_length]
    omega
  have h := (computeWindowsGo_fields _ (randomizationrange / 2) k
    (placeChunksGo (shuffledChunks R st0 allchunks sweep) 0
      (sweep * totalframesOf allchunks)).length 0 0 1 hk2 (by omega)).1
  rw [Nat.zero_add] at h
  rw [h, placeChunksGo_getD_data _ k _ _ (by rw [shuffledChunks_length]; omega)]

theorem rchunksOf_data_mem (R : RandFam) (st0 : RngState) (randomizationrange : Nat)
    (allchunks : List (List Nat)) (sweep k : Nat) (hk : k < allchunks.length) :
    ((rchunksOf R st0 randomizationrange allchunks sweep).getD k default).data ∈
      allchunks := by
  rw [rchunksOf_data R st0 randomizationrange allchunks sweep k hk]
  have hk2 : k < (shuffledChunks R st0 allchunks sweep).length := by
    rw [shuffledChunks_length]; omega
  rw [List.getD_eq_getElem _ [] hk2]
  exact (shuffledChunks_perm R st0 allchunks sweep).mem_iff.mp (List.getElem_mem hk2)

theorem rchunksOf_window (R : RandFam) (st0 : RngState) (randomizationrange : Nat)
    (allchunks : List (List Nat)) (sweep : Nat)
    (hsmall : ∀ d ∈ allchunks, List.sum d < randomizationrange / 2) :
    ∀ q, q < (rchunksOf R st0 randomizationrange allchunks sweep).length →
      ((rchunksOf R st0 randomizationrange allchunks sweep).getD q default).windowbegin ≤ q ∧
      q < ((rchunksOf R st0 randomizationrange allchunks sweep).getD q default).windowend := by
  intro q hq
  rw [rchunksOf_length] at hq
  have hplen : (placeChunksGo (shuffledChunks R st0 allchunks sweep) 0
      (sweep * totalframesOf allchunks)).length = allchunks.length := by
    rw [placeChunksGo_length, shuffledChunks_length]
  have hr : ∀ k, k < (placeChunksGo (shuffledChunks R st0 allchunks sweep) 0
      (sweep * totalframesOf allchunks)).length →
      ((placeChunksGo (shuffledChunks R st0 allchunks sweep) 0
        (sweep * totalframesOf allchunks)).getD k default).numframes <
        randomizationrange / 2 := by
    intro k hk
    rw [hplen] at hk
    unfold RChunk.numframes
    rw [placeChunksGo_getD_data _ k _ _ (by rw [shuffledChunks_length]; omega)]
    have hk2 : k < (shuffledChunks R st0 allchunks sweep).length := by
      rw [shuffledChunks_length]; omega
    rw [List.getD_eq_getElem _ [] hk2]
    exact hsmall _
      ((shuffledChunks_perm R st0 allchunks sweep).mem_iff.mp (List.getElem_mem hk2))
  have h := computeWindowsGo_window _ (randomizationrange / 2) hr q
    (placeChunksGo (shuffledChunks R st0 allchunks sweep) 0
      (sweep * totalframesOf allchunks)).length 0 0 1
    (by omega) (by omega) (by omega) (by omega)
  rw [Nat.zero_add] at h
  exact h

theorem validAtB_chunkindex (cs : List RChunk) (k : Nat) (r r2 : SeqRef)
    (h : r.chunkindex = r2.chunkindex) : validAtB cs k r = validAtB cs k r2 := by
  unfold validAtB
  rw [h]

theorem validAtB_iff (cs : List RChunk) (k : Nat) (r : SeqRef) :
    validAtB cs k r = true ↔
      ((cs.getD k default).windowbegin ≤ r.chunkindex ∧
        r.chunkindex < (cs.getD k default).windowend) := by
  simp [validAtB]

theorem initialRefs_valid (framemode : Bool) (cs : List RChunk)
    (hW : ∀ q, q < cs.length →
      (cs.getD q default).windowbegin ≤ q ∧ q < (cs.getD q default).windowend) :
    ValidAllP cs (posdefsList framemode cs) (initialRefs framemode cs) := by
  intro p hp
  have hpl : p < (posdefsList framemode cs).length := by
    rw [← initialRefs_length_eq]; exact hp
  have hchunk : (posdefsList framemode cs).getD p 0 =
      ((initialRefs framemode cs).getD p default).chunkindex := by
    rw [← posdefsList_map_eq framemode cs]
    rw [List.getD_eq_getElem _ 0 (by rw [List.length_map]; exact hp),
      List.getD_eq_getElem _ default hp, List.getElem_map]
  have hmem : (posdefsList framemode cs).getD p 0 ∈ posdefsList framemode cs := by
    rw [List.getD_eq_getElem _ 0 hpl]
    exact List.getElem_mem hpl
  have hlt : (posdefsList framemode cs).getD p 0 < cs.length :=
    posdefsList_mem_lt framemode cs _ hmem
  rw [validAtB_iff, ← hchunk]
  exact hW _ hlt

theorem validAll_finalize (cs : List RChunk) (posdefs : List Nat)
    (framemode : Bool) (t : Nat) (refs : List SeqRef)
    (hv : ValidAllP cs posdefs refs) :
    ValidAllP cs posdefs (finalizeRefsGo framemode cs t refs) := by
  intro p hp
  rw [finalizeRefsGo_length] at hp
  rw [validAtB_chunkindex cs _ _ (refs.getD p default)
    (finalizeRefsGo_getD_chunkindex framemode cs t refs p)]
  exact hv p hp

theorem refsShuffled_perm (R : RandFam) (fuel : Nat) (st0 : RngState)
    (framemode : Bool) (randomizationrange : Nat) (allchunks : List (List Nat))
    (sweep : Nat) :
    (refsShuffled R fuel st0 framemode randomizationrange allchunks sweep).Perm
      (initialRefs framemode (rchunksOf R st0 randomizationrange allchunks sweep)) :=
  shuffleRefsGo_perm R framemode _ _ _ fuel _ _ 0 _ _

theorem refsShuffled_valid (R : RandFam) (fuel : Nat) (st0 : RngState)
    (framemode : Bool) (randomizationrange : Nat) (allchunks : List (List Nat))
    (sweep : Nat)
    (hv : ValidAllP (rchunksOf R st0 randomizationrange allchunks sweep)
      (posdefsList framemode (rchunksOf R st0 randomizationrange allchunks sweep))
      (initialRefs framemode (rchunksOf R st0 randomizationrange allchunks sweep))) :
    ValidAllP (rchunksOf R st0 randomizationrange allchunks sweep)
      (posdefsList framemode (rchunksOf R st0 randomizationrange allchunks sweep))
      (refsShuffled R fuel st0 framemode randomizationrange allchunks sweep) :=
  shuffleRefsGo_valid R framemode _ _ _ fuel _ _ 0 _ _ hv

theorem lazySweep_some (R : RandFam) (fuel : Nat) (st0 : RngState)
    (framemode : Bool) (randomizationrange : Nat) (allchunks : List (List Nat))
    (sweep : Nat) (st : RandState)
    (h : lazyrandomizationSweep R fuel st0 framemode randomizationrange allchunks
      sweep = some st) :
    st.rchunks = rchunksOf R st0 randomizationrange allchunks sweep ∧
    st.posdefs = posdefsList framemode (rchunksOf R st0 randomizationrange allchunks sweep) ∧
    st.refs = refsFinal R fuel st0 framemode randomizationrange allchunks sweep ∧
    st.sweep = sweep := by
  unfold lazyrandomizationSweep at h
  split at h
  · cases h
    exact ⟨rfl, rfl, rfl, rfl⟩
  · cases h

theorem refsFinal_length (R : RandFam) (fuel : Nat) (st0 : RngState)
    (framemode : Bool) (randomizationrange : Nat) (allchunks : List (List Nat))
    (sweep : Nat) :
    (refsFinal R fuel st0 framemode randomizationrange allchunks sweep).length =
      (initialRefs framemode (rchunksOf R st0 randomizationrange allchunks sweep)).length := by
  unfold refsFinal
  rw [finalizeRefsGo_length]
  exact (refsShuffled_perm R fuel st0 framemode randomizationrange allchunks sweep).length_eq

/-- C1 counterexample.  The claim asserts that the self-check of
`lazyrandomization` never raises.  With a randomization range smaller than
the chunks (three utterances of 50000 frames, which the constructor packs as
a 100000-frame chunk followed by a 50000-frame chunk, and
`randomizationrange = 4`), the second chunk's window comes out empty, the
initial position assignment violates it, and the self-check raises the
logic error (modelled as `none`). -/
theorem c1_counterexample :
    lazyrandomization R0 4 rng0 false 4 [[50000, 50000], [50000]] 0 = none := by rfl

/-- C1 (amended).  Provided every chunk's total frame count is smaller than
`randomizationrange / 2`, `lazyrandomization` raises no logic error from its
self-check, and afterwards every sequence position `p` holds a sequence whose
chunk index lies in the half-open chunk window
`[windowbegin, windowend)` of the position's defining chunk — in both frame
mode (positions are frames) and utterance mode (positions are utterances). -/
theorem c1_window_containment (R : RandFam) (fuel : Nat) (st0 : RngState)
    (framemode : Bool) (randomizationrange : Nat) (allchunks : List (List Nat))
    (globalts : Nat)
    (hsmall : ∀ d ∈ allchunks, List.sum d < randomizationrange / 2) :
    ∃ st, lazyrandomization R fuel st0 framemode randomizationrange allchunks
        globalts = some st ∧
      ∀ p, p < st.refs.length →
        (st.rchunks.getD (st.posdefs.getD p 0) default).windowbegin ≤
          (st.refs.getD p default).chunkindex ∧
        (st.refs.getD p default).chunkindex <
          (st.rchunks.getD (st.posdefs.getD p 0) default).windowend := by
  have hW := rchunksOf_window R st0 randomizationrange allchunks
    (globalts / totalframesOf allchunks) hsmall
  have hv0 := initialRefs_valid framemode
    (rchunksOf R st0 randomizationrange allchunks (globalts / totalframesOf allchunks)) hW
  have hv1 := refsShuffled_valid R fuel st0 framemode randomizationrange allchunks
    (globalts / totalframesOf allchunks) hv0
  have hv2 : ValidAllP
      (rchunksOf R st0 randomizationrange allchunks (globalts / totalframesOf allchunks))
      (posdefsList framemode
        (rchunksOf R st0 randomizationrange allchunks (globalts / totalframesOf allchunks)))
      (refsFinal R fuel st0 framemode randomizationrange allchunks
        (globalts / totalframesOf allchunks)) :=
    validAll_finalize _ _ framemode _ _ hv1
  have hlen : (posdefsList framemode
      (rchunksOf R st0 randomizationrange allchunks
        (globalts / totalframesOf allchunks))).length =
      (refsFinal R fuel st0 framemode randomizationrange allchunks
        (globalts / totalframesOf allchunks)).length := by
    rw [refsFinal_length, initialRefs_length_eq]
  have hcheck := checkRefs_of_valid _ _ _ hlen hv2
  refine ⟨⟨rchunksOf R st0 randomizationrange allchunks
      (globalts / totalframesOf allchunks),
    posdefsList framemode (rchunksOf R st0 randomizationrange allchunks
      (globalts / totalframesOf allchunks)),
    refsFinal R fuel st0 framemode randomizationrange allchunks
      (globalts / totalframesOf allchunks),
    globalts / totalframesOf allchunks⟩, ?_, ?_⟩
  · show lazyrandomizationSweep R fuel st0 framemode randomizationrange allchunks
      (globalts / totalframesOf allchunks) = _
    unfold lazyrandomizationSweep
    rw [if_pos hcheck]
  · intro p hp
    have := hv2 p hp
    rw [validAtB_iff] at this
    exact this

/-- Witness for C1 (amended): two chunks of 3 frames with range 12. -/
theorem c1_window_containment_witness :
    (∀ d ∈ ([[3], [3]] : List (List Nat)), List.sum d < 12 / 2) ∧
    (∃ st, lazyrandomization R0 4 rng0 false 12 [[3], [3]] 0 = some st ∧
      ∀ p, p < st.refs.length →
        (st.rchunks.getD (st.posdefs.getD p 0) default).windowbegin ≤
          (st.refs.getD p default).chunkindex ∧
        (st.refs.getD p default).chunkindex <
          (st.rchunks.getD (st.posdefs.getD p 0) default).windowend) :=
  ⟨by decide, c1_window_containment R0 4 rng0 false 12 [[3], [3]] 0 (by decide)⟩

theorem initialRefs_nf_sum (framemode : Bool) (cs : List RChunk) :
    ((initialRefs framemode cs).map (fun r => if framemode then 1
      else (cs.getD r.chunkindex default).data.getD r.utteranceindex 0)).sum =
    ((List.range cs.length).map (fun k => (cs.getD k default).data.sum)).sum := by
  unfold initialRefs
  rw [List.map_flatMap, sum_flatMapAux]
  congr 1
  apply List.map_congr_left
  intro k _
  rw [List.map_map]
  have hc : ((fun r => if framemode = true then 1
      else (cs.getD r.chunkindex default).data.getD r.utteranceindex 0) ∘
      (fun im : Nat × Nat => (⟨k, im.1, im.2, SIZEMAX, 0⟩ : SeqRef))) =
      (fun im : Nat × Nat => if framemode = true then 1
        else (cs.getD k default).data.getD im.1 0) := rfl
  rw [hc]
  exact chunkSeqIdx_nf_sum framemode _

theorem rchunksOf_sum (R : RandFam) (st0 : RngState) (randomizationrange : Nat)
    (allchunks : List (List Nat)) (sweep : Nat) :
    ((List.range (rchunksOf R st0 randomizationrange allchunks sweep).length).map
      (fun k => ((rchunksOf R st0 randomizationrange allchunks sweep).getD k
        default).data.sum)).sum = totalframesOf allchunks := by
  have hlen := rchunksOf_length R st0 randomizationrange allchunks sweep
  have h1 : (List.range (rchunksOf R st0 randomizationrange allchunks sweep).length).map
      (fun k => ((rchunksOf R st0 randomizationrange allchunks sweep).getD k
        default).data.sum) =
      (List.range allchunks.length).map
        (fun k => ((shuffledChunks R st0 allchunks sweep).getD k []).sum) := by
    rw [hlen]
    apply List.map_congr_left
    intro k hk
    rw [rchunksOf_data R st0 randomizationrange allchunks sweep k (List.mem_range.mp hk)]
  rw [h1]
  have h2 : (List.range allchunks.length).map
      (fun k => ((shuffledChunks R st0 allchunks sweep).getD k []).sum) =
      (shuffledChunks R st0 allchunks sweep).map List.sum := by
    rw [← shuffledChunks_length R st0 allchunks sweep]
    exact map_range_getD (shuffledChunks R st0 allchunks sweep) [] List.sum
  rw [h2]
  unfold totalframesOf
  exact ((shuffledChunks_perm R st0 allchunks sweep).map List.sum).sum_eq

theorem initialRefs_pos (framemode : Bool) (R : RandFam) (st0 : RngState)
    (randomizationrange : Nat) (allchunks : List (List Nat)) (sweep : Nat)
    (hT : 0 < totalframesOf allchunks) :
    0 < (initialRefs framemode
      (rchunksOf R st0 randomizationrange allchunks sweep)).length := by
  rw [initialRefs_length]
  cases framemode with
  | true =>
      simp only [if_true]
      rw [rchunksOf_sum]
      exact hT
  | false =>
      simp only [Bool.false_eq_true, if_false]
      by_contra h
      push_neg at h
      have h0 : ((List.range (rchunksOf R st0 randomizationrange allchunks
          sweep).length).map (fun k =>
          ((rchunksOf R st0 randomizationrange allchunks sweep).getD k
            default).data.length)).sum = 0 := by omega
      rw [List.sum_eq_zero_iff] at h0
      have hs : ((List.range (rchunksOf R st0 randomizationrange allchunks
          sweep).length).map (fun k =>
          ((rchunksOf R st0 randomizationrange allchunks sweep).getD k
            default).data.sum)).sum = 0 := by
        rw [List.sum_eq_zero_iff]
        intro x hx
        rw [List.mem_map] at hx
        obtain ⟨k, hk, rfl⟩ := hx
        have hl := h0 _ (List.mem_map.mpr ⟨k, hk, rfl⟩)
        have hdata : ((rchunksOf R st0 randomizationrange allchunks sweep).getD k
            default).data = [] := List.length_eq_zero.mp hl
        rw [hdata]
        rfl
      rw [rchunksOf_sum] at hs
      omega

/-- C3. After `lazyrandomization` completes for a sweep, the randomized
sequence timeline tiles the sweep exactly: the frame counts of the entries of
`randomizedutterancerefs` sum to `totalframes`, entry 0 starts at
`sweep * totalframes`, every entry starts at `sweep * totalframes` plus the
frame counts of the entries before it, and the last entry ends at
`(sweep + 1) * totalframes`. -/
theorem c3_timeline_tiles (R : RandFam) (fuel : Nat) (st0 : RngState)
    (framemode : Bool) (randomizationrange : Nat) (allchunks : List (List Nat))
    (globalts : Nat) (st : RandState)
    (hok : lazyrandomization R fuel st0 framemode randomizationrange allchunks
      globalts = some st)
    (hT : 0 < totalframesOf allchunks) :
    (st.refs.map SeqRef.numframes).sum = totalframesOf allchunks ∧
    st.refs ≠ [] ∧
    (st.refs.getD 0 default).globalts = st.sweep * totalframesOf allchunks ∧
    (∀ p, p < st.refs.length → (st.refs.getD p default).globalts =
      st.sweep * totalframesOf allchunks +
        ((st.refs.take p).map SeqRef.numframes).sum) ∧
    (st.refs.getD (st.refs.length - 1) default).globalte =
      (st.sweep + 1) * totalframesOf allchunks := by
  obtain ⟨hrc, hpd, hrf, hsw⟩ := lazySweep_some R fuel st0 framemode
    randomizationrange allchunks _ st hok
  have hshuf := refsShuffled_perm R fuel st0 framemode randomizationrange allchunks
    (globalts / (allchunks.map List.sum).sum)
  have hsum : (st.refs.map SeqRef.numframes).sum = totalframesOf allchunks := by
    rw [hrf]
    unfold refsFinal
    rw [finalizeRefsGo_sum]
    rw [(hshuf.map (fun r => if framemode then 1
      else ((rchunksOf R st0 randomizationrange allchunks
        (globalts / (allchunks.map List.sum).sum)).getD r.chunkindex
        default).data.getD r.utteranceindex 0)).sum_eq]
    rw [initialRefs_nf_sum, rchunksOf_sum]
  have hlenr : st.refs.length = (initialRefs framemode
      (rchunksOf R st0 randomizationrange allchunks
        (globalts / (allchunks.map List.sum).sum))).length := by
    rw [hrf, refsFinal_length]
  have hpos : 0 < st.refs.length := by
    rw [hlenr]
    exact initialRefs_pos framemode R st0 randomizationrange allchunks _ hT
  have hne : st.refs ≠ [] := by
    intro h
    rw [h] at hpos
    simp at hpos
  have hall : ∀ p, p < st.refs.length → (st.refs.getD p default).globalts =
      st.sweep * totalframesOf allchunks +
        ((st.refs.take p).map SeqRef.numframes).sum := by
    intro p hp
    conv_lhs => rw [hrf]
    rw [hsw]
    conv_rhs => rw [hrf]
    unfold refsFinal
    rw [finalizeRefsGo_getD_globalts]
    rw [hshuf.length_eq]
    rw [← hlenr]
    exact hp
  refine ⟨hsum, hne, ?_, hall, ?_⟩
  · have := hall 0 hpos
    simpa using this
  · conv_lhs => rw [hrf]
    rw [hsw]
    have hshne : (refsShuffled R fuel st0 framemode randomizationrange allchunks
        (globalts / (allchunks.map List.sum).sum)) ≠ [] := by
      intro h
      have hl := hshuf.length_eq
      rw [h] at hl
      rw [hrf, refsFinal_length] at hpos
      simp only [List.length_nil] at hl
      omega
    unfold refsFinal
    rw [show (finalizeRefsGo framemode (rchunksOf R st0 randomizationrange allchunks
        (globalts / (allchunks.map List.sum).sum))
        ((globalts / (allchunks.map List.sum).sum) * totalframesOf allchunks)
        (refsShuffled R fuel st0 framemode randomizationrange allchunks
          (globalts / (allchunks.map List.sum).sum))).length =
      (refsFinal R fuel st0 framemode randomizationrange allchunks
        (globalts / (allchunks.map List.sum).sum)).length from rfl]
    rw [show (refsFinal R fuel st0 framemode randomizationrange allchunks
        (globalts / (allchunks.map List.sum).sum)) =
      finalizeRefsGo framemode (rchunksOf R st0 randomizationrange allchunks
        (globalts / (allchunks.map List.sum).sum))
        ((globalts / (allchunks.map List.sum).sum) * totalframesOf allchunks)
        (refsShuffled R fuel st0 framemode randomizationrange allchunks
          (globalts / (allchunks.map List.sum).sum)) from rfl]
    rw [finalizeRefsGo_last framemode _ _ _ hshne]
    have hsum2 := hsum
    rw [hrf] at hsum2
    unfold refsFinal at hsum2
    rw [hsum2, Nat.succ_mul]

theorem chunkSeqIdx_nodup (framemode : Bool) (dta : List Nat) :
    (chunkSeqIdx framemode dta).Nodup := by
  unfold chunkSeqIdx
  rw [List.nodup_flatMap]
  constructor
  · intro i _
    refine List.Nodup.map ?_ (List.nodup_range _)
    intro a b hab
    simpa using hab
  · refine (List.pairwise_lt_range _).imp ?_
    intro i j hij
    intro x hxi hxj
    rw [List.mem_map] at hxi hxj
    obtain ⟨m, _, rfl⟩ := hxi
    obtain ⟨m2, _, he⟩ := hxj
    have : j = i := by
      have := congrArg Prod.fst he
      simpa using this
    omega

theorem initialRefs_triple_nodup (framemode : Bool) (cs : List RChunk) :
    ((initialRefs framemode cs).map SeqRef.triple).Nodup := by
  unfold initialRefs
  rw [List.map_flatMap]
  rw [List.nodup_flatMap]
  constructor
  · intro k _
    rw [List.map_map]
    refine List.Nodup.map ?_ (chunkSeqIdx_nodup framemode _)
    intro a b hab
    simp only [Function.comp_apply, SeqRef.triple] at hab
    have h1 : a.1 = b.1 ∧ a.2 = b.2 := by
      constructor
      · exact congrArg (fun q => q.2.1) hab
      · exact congrArg (fun q => q.2.2) hab
    exact Prod.ext h1.1 h1.2
  · refine (List.pairwise_lt_range _).imp ?_
    intro i j hij
    intro x hxi hxj
    simp only [List.map_map, List.mem_map] at hxi hxj
    obtain ⟨a, _, rfl⟩ := hxi
    obtain ⟨b, _, he⟩ := hxj
    have : j = i := by
      have := congrArg (fun q => q.1) he
      simpa [SeqRef.triple] using this
    omega

/-- C4. After `lazyrandomization`, `randomizedutterancerefs` is a permutation
of the initial catalog-order assignment: the multiset of
`(chunkindex, utteranceindex, frameindex)` triples equals the multiset of the
enumeration of the randomized chunk sequence (every chunk, every utterance in
it, and each internal sequence index — one per frame in frame mode, one in
utterance mode); the randomized triples are pairwise distinct, so together
with the multiset identity every triple appears exactly once. -/
theorem c4_permutation (R : RandFam) (fuel : Nat) (st0 : RngState)
    (framemode : Bool) (randomizationrange : Nat) (allchunks : List (List Nat))
    (globalts : Nat) (st : RandState)
    (hok : lazyrandomization R fuel st0 framemode randomizationrange allchunks
      globalts = some st) :
    Multiset.ofList (st.refs.map SeqRef.triple) =
      Multiset.ofList ((initialRefs framemode st.rchunks).map SeqRef.triple) ∧
    (st.refs.map SeqRef.triple).Nodup := by
  obtain ⟨hrc, hpd, hrf, hsw⟩ := lazySweep_some R fuel st0 framemode
    randomizationrange allchunks _ st hok
  have hperm : (st.refs.map SeqRef.triple).Perm
      ((initialRefs framemode st.rchunks).map SeqRef.triple) := by
    rw [hrf, hrc]
    unfold refsFinal
    rw [finalizeRefsGo_map_triple]
    exact (refsShuffled_perm R fuel st0 framemode randomizationrange allchunks
      (globalts / (allchunks.map List.sum).sum)).map SeqRef.triple
  constructor
  · exact Multiset.coe_eq_coe.mpr hperm
  · refine hperm.nodup_iff.mpr ?_
    exact initialRefs_triple_nodup framemode _

/-- Witness for C3: the witness corpus in frame mode, sweep 0. -/
theorem c3_timeline_tiles_witness :
    lazyrandomization R0 4 rng0 true 12 exChunks 0 = some exState ∧
    0 < totalframesOf exChunks ∧
    ((exState.refs.map SeqRef.numframes).sum = totalframesOf exChunks ∧
    exState.refs ≠ [] ∧
    (exState.refs.getD 0 default).globalts = exState.sweep * totalframesOf exChunks ∧
    (∀ p, p < exState.refs.length → (exState.refs.getD p default).globalts =
      exState.sweep * totalframesOf exChunks +
        ((exState.refs.take p).map SeqRef.numframes).sum) ∧
    (exState.refs.getD (exState.refs.length - 1) default).globalte =
      (exState.sweep + 1) * totalframesOf exChunks) :=
  ⟨rfl, by decide, c3_timeline_tiles R0 4 rng0 true 12 exChunks 0 exState rfl (by decide)⟩

/-- Witness for C4: the witness corpus in frame mode, sweep 0. -/
theorem c4_permutation_witness :
    lazyrandomization R0 4 rng0 true 12 exChunks 0 = some exState ∧
    (Multiset.ofList (exState.refs.map SeqRef.triple) =
      Multiset.ofList ((initialRefs true exState.rchunks).map SeqRef.triple) ∧
    (exState.refs.map SeqRef.triple).Nodup) :=
  ⟨rfl, c4_permutation R0 4 rng0 true 12 exChunks 0 exState rfl⟩

theorem getbatchFM_fa (R : RandFam) (fuel : Nat) (st0 : RngState)
    (randomizationrange : Nat) (allchunks : List (List Nat))
    (globalts framesrequested subsetnum numsubsets : Nat) (r : BatchResult)
    (st : RandState)
    (hst : lazyrandomization R fuel st0 true randomizationrange allchunks globalts =
      some st)
    (hok : getbatchFM R fuel st0 true randomizationrange allchunks globalts
      framesrequested subsetnum numsubsets = some r) :
    r.framesadvanced =
      min (globalts + framesrequested)
        (st.sweep * (allchunks.map List.sum).sum + (allchunks.map List.sum).sum) -
        globalts := by
  unfold getbatchFM at hok
  rw [hst] at hok
  simp only [if_pos rfl] at hok
  split at hok
  · split at hok
    · split at hok
      · simp at hok
      · cases hok
        rfl
    · simp at hok
  · rename_i h
    exact absurd trivial h

/-- C5. In frame mode, whenever `getbatch(globalts, framesrequested,
subsetnum, numsubsets)` with `framesrequested >= 1` and `totalframes > 0`
returns, the reported `framesadvanced` equals
`min(framesrequested, (sweep + 1) * totalframes - globalts)` with
`sweep = globalts / totalframes`; the value is independent of `subsetnum` and
`numsubsets` (it is the logical advance, not the subset-filtered frame
count). -/
theorem c5_framesadvanced (R : RandFam) (fuel : Nat) (st0 : RngState)
    (randomizationrange : Nat) (allchunks : List (List Nat))
    (globalts framesrequested subsetnum numsubsets : Nat) (r : BatchResult)
    (hok : getbatchFM R fuel st0 true randomizationrange allchunks globalts
      framesrequested subsetnum numsubsets = some r)
    (hf : 1 ≤ framesrequested) (hT : 0 < totalframesOf allchunks) :
    r.framesadvanced = min framesrequested
      ((globalts / totalframesOf allchunks + 1) * totalframesOf allchunks - globalts) ∧
    (∀ subsetnum2 numsubsets2 r2,
      getbatchFM R fuel st0 true randomizationrange allchunks globalts
        framesrequested subsetnum2 numsubsets2 = some r2 →
      r2.framesadvanced = r.framesadvanced) := by
  have hfa : ∀ (s2 n2 : Nat) (r2 : BatchResult),
      getbatchFM R fuel st0 true randomizationrange allchunks globalts
        framesrequested s2 n2 = some r2 →
      r2.framesadvanced = min framesrequested
        ((globalts / totalframesOf allchunks + 1) * totalframesOf allchunks -
          globalts) := by
    intro s2 n2 r2 hok2
    cases hst : lazyrandomization R fuel st0 true randomizationrange allchunks
        globalts with
    | none =>
        unfold getbatchFM at hok2
        rw [hst] at hok2
        cases hok2
    | some st =>
        have h := getbatchFM_fa R fuel st0 randomizationrange allchunks globalts
          framesrequested s2 n2 r2 st hst hok2
        have hsw : st.sweep = globalts / (allchunks.map List.sum).sum :=
          (lazySweep_some R fuel st0 true randomizationrange allchunks _ st hst).2.2.2
        rw [h, hsw]
        have hTT : 0 < (allchunks.map List.sum).sum := hT
        have hdm := Nat.div_add_mod globalts (allchunks.map List.sum).sum
        have hml := Nat.mod_lt globalts hTT
        have hmul : (globalts / (allchunks.map List.sum).sum + 1) *
            (allchunks.map List.sum).sum =
            globalts / (allchunks.map List.sum).sum *
              (allchunks.map List.sum).sum + (allchunks.map List.sum).sum :=
          Nat.succ_mul _ _
        show min (globalts + framesrequested)
            (globalts / (allchunks.map List.sum).sum * (allchunks.map List.sum).sum +
              (allchunks.map List.sum).sum) - globalts =
          min framesrequested
            ((globalts / (allchunks.map List.sum).sum + 1) *
              (allchunks.map List.sum).sum - globalts)
        rw [hmul]
        rcases le_total (globalts + framesrequested)
            (globalts / (allchunks.map List.sum).sum * (allchunks.map List.sum).sum +
              (allchunks.map List.sum).sum) with hle | hle
        · rw [Nat.min_eq_left hle, Nat.min_eq_left (by omega)]
          omega
        · rw [Nat.min_eq_right hle, Nat.min_eq_right (by omega)]
  exact ⟨hfa subsetnum numsubsets r hok, fun s2 n2 r2 h2 =>
    (hfa s2 n2 r2 h2).trans (hfa subsetnum numsubsets r hok).symm⟩

/-- Witness for C5: the witness corpus in frame mode, a 4-frame request at the
sweep start. -/
theorem c5_framesadvanced_witness :
    getbatchFM R0 4 rng0 true 12 exChunks 0 4 0 1 =
      some ((getbatchFM R0 4 rng0 true 12 exChunks 0 4 0 1).getD default) ∧
    1 ≤ 4 ∧ 0 < totalframesOf exChunks ∧
    (((getbatchFM R0 4 rng0 true 12 exChunks 0 4 0 1).getD default).framesadvanced =
      min 4 ((0 / totalframesOf exChunks + 1) * totalframesOf exChunks - 0) ∧
    (∀ subsetnum2 numsubsets2 r2,
      getbatchFM R0 4 rng0 true 12 exChunks 0 4 subsetnum2 numsubsets2 = some r2 →
      r2.framesadvanced =
        ((getbatchFM R0 4 rng0 true 12 exChunks 0 4 0 1).getD
          default).framesadvanced)) :=
  ⟨rfl, by decide, by decide,
    c5_framesadvanced R0 4 rng0 12 exChunks 0 4 0 1
      ((getbatchFM R0 4 rng0 true 12 exChunks 0 4 0 1).getD default) rfl
      (by decide) (by decide)⟩

theorem gbLoopGo_char (refs : List SeqRef) (T wb we numsubsets subsetnum cols g : Nat) :
    ∀ (rem jj count : Nat) (acc L : List Nat),
    cols = count + ((List.range' jj rem).filter (fun q =>
      decide ((refs.getD ((g + q) % T) default).chunkindex % numsubsets =
        subsetnum))).length →
    gbLoopGo refs T wb we numsubsets subsetnum cols g rem jj count acc = some L →
    L = acc.reverse ++ ((List.range' jj rem).filter (fun q =>
      decide ((refs.getD ((g + q) % T) default).chunkindex % numsubsets =
        subsetnum))).map (fun q => g + q) := by
  intro rem
  induction rem with
  | zero =>
      intro jj count acc L hc hok
      simp only [gbLoopGo] at hok
      cases hok
      simp
  | succ rem ih =>
      intro jj count acc L hc hok
      rw [List.range'_succ] at hc ⊢
      simp only [gbLoopGo] at hok
      by_cases hbreak : cols ≤ count
      · rw [if_pos hbreak] at hok
        cases hok
        have h0 : ((jj :: List.range' (jj + 1) rem).filter (fun q =>
            decide ((refs.getD ((g + q) % T) default).chunkindex % numsubsets =
              subsetnum))).length = 0 := by omega
        rw [List.length_eq_zero] at h0
        rw [h0]
        simp
      · rw [if_neg hbreak] at hok
        by_cases hsel : (refs.getD ((g + jj) % T) default).chunkindex % numsubsets =
            subsetnum
        · rw [if_pos hsel] at hok
          by_cases hwin : (refs.getD ((g + jj) % T) default).chunkindex < wb ∨
              we ≤ (refs.getD ((g + jj) % T) default).chunkindex
          · rw [if_pos hwin] at hok
            cases hok
          · rw [if_neg hwin] at hok
            have hfc : (jj :: List.range' (jj + 1) rem).filter (fun q =>
                decide ((refs.getD ((g + q) % T) default).chunkindex % numsubsets =
                  subsetnum)) =
                jj :: (List.range' (jj + 1) rem).filter (fun q =>
                  decide ((refs.getD ((g + q) % T) default).chunkindex % numsubsets =
                    subsetnum)) := by
              rw [List.filter_cons, if_pos (decide_eq_true hsel)]
            rw [hfc] at hc
            have hc2 : cols = (count + 1) + ((List.range' (jj + 1) rem).filter (fun q =>
                decide ((refs.getD ((g + q) % T) default).chunkindex % numsubsets =
                  subsetnum))).length := by
              rw [List.length_cons] at hc
              omega
            have hrec := ih (jj + 1) (count + 1) ((g + jj) :: acc) L hc2 hok
            rw [hrec, hfc]
            simp
        · rw [if_neg hsel] at hok
          have hfc : (jj :: List.range' (jj + 1) rem).filter (fun q =>
              decide ((refs.getD ((g + q) % T) default).chunkindex % numsubsets =
                subsetnum)) =
              (List.range' (jj + 1) rem).filter (fun q =>
                decide ((refs.getD ((g + q) % T) default).chunkindex % numsubsets =
                  subsetnum)) := by
            rw [List.filter_cons, if_neg (fun h => hsel (of_decide_eq_true h))]
          rw [hfc] at hc
          have hrec := ih (jj + 1) count acc L hc hok
          rw [hrec, hfc]

theorem filter_range_shift (refs : List SeqRef) (T numsubsets subsetnum g n : Nat) :
    (List.filter (fun q =>
      decide ((refs.getD ((g + q) % T) default).chunkindex % numsubsets = subsetnum))
      (List.range' 0 n)).map (fun q => g + q) =
    List.filter (fun t =>
      decide ((refs.getD (t % T) default).chunkindex % numsubsets = subsetnum))
      (List.range' g n) := by
  have h1 : List.range' g n = (List.range n).map (fun q => g + q) := by
    rw [List.range'_eq_map_range]
  rw [h1, List.filter_map, ← List.range_eq_range']
  rfl

theorem gbLoopGo_full (refs : List SeqRef) (T wb we numsubsets subsetnum g mb : Nat)
    (L : List Nat)
    (hok : gbLoopGo refs T wb we numsubsets subsetnum
      (((List.range mb).filter (fun i =>
        decide ((refs.getD ((g + i) % T) default).chunkindex % numsubsets =
          subsetnum))).length) g mb 0 0 [] = some L) :
    L = List.filter (fun t =>
      decide ((refs.getD (t % T) default).chunkindex % numsubsets = subsetnum))
      (List.range' g mb) := by
  have hc : (((List.range mb).filter (fun i =>
      decide ((refs.getD ((g + i) % T) default).chunkindex % numsubsets =
        subsetnum))).length) =
      0 + ((List.range' 0 mb).filter (fun q =>
        decide ((refs.getD ((g + q) % T) default).chunkindex % numsubsets =
          subsetnum))).length := by
    rw [← List.range_eq_range', Nat.zero_add]
  have h := gbLoopGo_char refs T wb we numsubsets subsetnum _ g mb 0 0 [] L hc hok
  rw [h, List.reverse_nil, List.nil_append, filter_range_shift]

theorem getbatchFM_frames (R : RandFam) (fuel : Nat) (st0 : RngState)
    (randomizationrange : Nat) (allchunks : List (List Nat))
    (globalts framesrequested subsetnum numsubsets : Nat) (r : BatchResult)
    (st : RandState)
    (hst : lazyrandomization R fuel st0 true randomizationrange allchunks globalts =
      some st)
    (hok : getbatchFM R fuel st0 true randomizationrange allchunks globalts
      framesrequested subsetnum numsubsets = some r) :
    r.frames = List.filter (fun t =>
      decide ((st.refs.getD (t % (allchunks.map List.sum).sum) default).chunkindex %
        numsubsets = subsetnum))
      (List.range' globalts r.framesadvanced) := by
  unfold getbatchFM at hok
  rw [hst] at hok
  simp only [if_pos rfl] at hok
  split at hok
  · split at hok
    · split at hok
      · simp at hok
      · rename_i fs hgb
        cases hok
        exact gbLoopGo_full st.refs _ _ _ numsubsets subsetnum globalts _ fs hgb
    · simp at hok
  · rename_i h
    exact absurd trivial h

theorem consumeSweepGo_char (R : RandFam) (fuel : Nat) (st0 : RngState)
    (randomizationrange : Nat) (allchunks : List (List Nat))
    (framesrequested subsetnum numsubsets sweep : Nat) (st : RandState)
    (hst : lazyrandomizationSweep R fuel st0 true randomizationrange allchunks
      sweep = some st) :
    ∀ (dfuel g : Nat) (L : List Nat),
    sweep * totalframesOf allchunks ≤ g →
    consumeSweepGo R fuel st0 randomizationrange allchunks framesrequested
      subsetnum numsubsets ((sweep + 1) * totalframesOf allchunks) dfuel g =
      some L →
    L = List.filter (fun t =>
      decide ((st.refs.getD (t % totalframesOf allchunks) default).chunkindex %
        numsubsets = subsetnum))
      (List.range' g ((sweep + 1) * totalframesOf allchunks - g)) := by
  intro dfuel
  induction dfuel with
  | zero =>
      intro g L hg hok
      simp only [consumeSweepGo] at hok
      split at hok
      · cases hok
        rename_i hge
        rw [show (sweep + 1) * totalframesOf allchunks - g = 0 from by omega]
        simp
      · simp at hok
  | succ dfuel ih =>
      intro g L hg hok
      simp only [consumeSweepGo] at hok
      split at hok
      · cases hok
        rename_i hge
        rw [show (sweep + 1) * totalframesOf allchunks - g = 0 from by omega]
        simp
      · rename_i hlt
        split at hok
        · simp at hok
        · rename_i r hcall
          split at hok
          · simp at hok
          · rename_i rest hrec
            cases hok
            have hmul : (sweep + 1) * totalframesOf allchunks =
                sweep * totalframesOf allchunks + totalframesOf allchunks :=
              Nat.succ_mul _ _
            have hdiv : g / totalframesOf allchunks = sweep := by
              refine Nat.div_eq_of_lt_le hg ?_
              have hmul2 : Nat.succ sweep * totalframesOf allchunks =
                  sweep * totalframesOf allchunks + totalframesOf allchunks :=
                Nat.succ_mul _ _
              omega
            have hstg : lazyrandomization R fuel st0 true randomizationrange
                allchunks g = some st := by
              unfold lazyrandomization
              show lazyrandomizationSweep R fuel st0 true randomizationrange
                allchunks (g / (allchunks.map List.sum).sum) = some st
              rw [show (allchunks.map List.sum).sum = totalframesOf allchunks
                from rfl, hdiv]
              exact hst
            have hfa := getbatchFM_fa R fuel st0 randomizationrange allchunks g
              framesrequested subsetnum numsubsets r st hstg hcall
            have hfr := getbatchFM_frames R fuel st0 randomizationrange allchunks g
              framesrequested subsetnum numsubsets r st hstg hcall
            have hsw : st.sweep = sweep :=
              (lazySweep_some R fuel st0 true randomizationrange allchunks sweep
                st hst).2.2.2
            have hTdef : (allchunks.map List.sum).sum = totalframesOf allchunks :=
              rfl
            rw [hsw, hTdef] at hfa
            rw [hTdef] at hfr
            have hfab : g + r.framesadvanced ≤
                (sweep + 1) * totalframesOf allchunks := by
              rw [hfa]
              omega
            have hrest := ih (g + r.framesadvanced) rest (by omega) hrec
            rw [hfr, hrest, ← List.filter_append]
            congr 1
            have hap := List.range'_append g r.framesadvanced
              ((sweep + 1) * totalframesOf allchunks - (g + r.framesadvanced)) 1
            simp only [one_mul] at hap
            rw [show (sweep + 1) * totalframesOf allchunks - g =
              ((sweep + 1) * totalframesOf allchunks - (g + r.framesadvanced)) +
                r.framesadvanced
              from by omega]
            exact hap

/-- C6. In frame mode, a full sweep consumed by repeated `getbatch` calls for
one subset returns exactly the frame positions of the sweep whose randomized
sequence entry sits in a chunk with `chunkindex % numsubsets == subsetnum`:
every returned position lies in the sweep, and a sweep position is returned
iff its entry's chunk index selects this subset.  Quantified over the subset,
this makes the returned sets a disjoint cover of the sweep indexed by
`chunkindex mod numsubsets`. -/
theorem c6_subset_partition (R : RandFam) (fuel : Nat) (st0 : RngState)
    (randomizationrange : Nat) (allchunks : List (List Nat))
    (framesrequested subsetnum numsubsets sweep dfuel : Nat) (st : RandState)
    (L : List Nat)
    (hst : lazyrandomizationSweep R fuel st0 true randomizationrange allchunks
      sweep = some st)
    (hok : consumeSweepGo R fuel st0 randomizationrange allchunks framesrequested
      subsetnum numsubsets ((sweep + 1) * totalframesOf allchunks) dfuel
      (sweep * totalframesOf allchunks) = some L) :
    (∀ t ∈ L, sweep * totalframesOf allchunks ≤ t ∧
      t < (sweep + 1) * totalframesOf allchunks) ∧
    (∀ t, sweep * totalframesOf allchunks ≤ t →
      t < (sweep + 1) * totalframesOf allchunks →
      (t ∈ L ↔
        (st.refs.getD (t - sweep * totalframesOf allchunks) default).chunkindex %
          numsubsets = subsetnum)) := by
  have hchar := consumeSweepGo_char R fuel st0 randomizationrange allchunks
    framesrequested subsetnum numsubsets sweep st hst dfuel
    (sweep * totalframesOf allchunks) L (le_refl _) hok
  have hmul : (sweep + 1) * totalframesOf allchunks =
      sweep * totalframesOf allchunks + totalframesOf allchunks :=
    Nat.succ_mul _ _
  have hmem : ∀ t, t ∈ L ↔ (t ∈ List.range' (sweep * totalframesOf allchunks)
      ((sweep + 1) * totalframesOf allchunks - sweep * totalframesOf allchunks) ∧
      decide ((st.refs.getD (t % totalframesOf allchunks) default).chunkindex %
        numsubsets = subsetnum) = true) := by
    intro t
    rw [hchar]
    exact List.mem_filter
  constructor
  · intro t ht
    have hm := (hmem t).mp ht
    have hr := List.mem_range'_1.mp hm.1
    omega
  · intro t h1 h2
    have hmod : t % totalframesOf allchunks =
        t - sweep * totalframesOf allchunks := by
      have hoff : t - sweep * totalframesOf allchunks < totalframesOf allchunks :=
        by omega
      have ht2 : sweep * totalframesOf allchunks +
          (t - sweep * totalframesOf allchunks) = t := by omega
      calc t % totalframesOf allchunks
          = (sweep * totalframesOf allchunks +
              (t - sweep * totalframesOf allchunks)) % totalframesOf allchunks :=
            by rw [ht2]
        _ = (t - sweep * totalframesOf allchunks) % totalframesOf allchunks := by
            rw [Nat.mul_comm sweep (totalframesOf allchunks)]
            exact Nat.mul_add_mod _ _ _
        _ = t - sweep * totalframesOf allchunks := Nat.mod_eq_of_lt hoff
    rw [hmem t]
    constructor
    · rintro ⟨hrange, hsel⟩
      rw [hmod] at hsel
      exact of_decide_eq_true hsel
    · intro hsel
      refine ⟨List.mem_range'_1.mpr ⟨h1, by omega⟩, ?_⟩
      rw [hmod]
      exact decide_eq_true hsel

/-- Witness for C6: the witness corpus in frame mode, `numsubsets = 2`,
subset 0; the sweep [0, 6) is consumed in 2-frame requests and subset 0
receives exactly the positions of the chunk with index 0. -/
theorem c6_subset_partition_witness :
    lazyrandomizationSweep R0 4 rng0 true 12 exChunks 0 = some exState ∧
    consumeSweepGo R0 4 rng0 12 exChunks 2 0 2 ((0 + 1) * totalframesOf exChunks)
      10 (0 * totalframesOf exChunks) = some [0, 1, 2] ∧
    ((∀ t ∈ [0, 1, 2], 0 * totalframesOf exChunks ≤ t ∧
      t < (0 + 1) * totalframesOf exChunks) ∧
    (∀ t, 0 * totalframesOf exChunks ≤ t →
      t < (0 + 1) * totalframesOf exChunks →
      (t ∈ [0, 1, 2] ↔
        (exState.refs.getD (t - 0 * totalframesOf exChunks) default).chunkindex %
          2 = 0))) :=
  ⟨rfl, rfl,
    c6_subset_partition R0 4 rng0 12 exChunks 2 0 2 0 10 exState [0, 1, 2]
      rfl rfl⟩

/-- Witness for C8 (amended): three utterances, one of 70000 frames; it is
invalidated non-fatally, the other two stay valid, and the phase succeeds. -/
theorem c8_overlong_nonfatal_witness :
    (∀ d ∈ ([5, 70000, 5] : List Nat), 2 ≤ d) ∧
    probeDurations false [[5, 70000, 5]] [0] [0] 1 =
      (if ([5, 70000, 5] : List Nat).length / 2 <
          ([5, 70000, 5] : List Nat).countP (fun d => decide (65535 < d)) then
        .error .runtimeError
      else .ok (([5, 70000, 5] : List Nat).map (fun d => if 65535 < d then 0 else d),
        ([5, 70000, 5] : List Nat).map (fun d => decide (d ≤ 65535)))) :=
  ⟨by decide, c8_overlong_nonfatal [5, 70000, 5] (by decide)⟩

end CNTKSource
